import Mathlib

set_option linter.unusedVariables false

deriving instance DecidableEq for Except

namespace Collector

/-! Shallow embedding of the subscrforge/collector repository: the duration
and rate-limit parsing in `src/collector/_utils.py`, the caching rate-limited
transport in `src/collector/_base/_transport.py`, the post-body model in
`src/collector/_base/post.py`, the money value in
`src/collector/_base/models.py`, and the pixivFANBOX article builder in
`src/collector/fanbox/models.py`.  Python floats are modelled as IEEE-754
binary64 values (53-bit significand, round half to even, unbounded exponent:
overflow to infinity and subnormal loss lie outside the values this code
meets); Python `Decimal` values by coefficient-exponent pairs with the
default context's 28-significant-digit half-even rounding; Python
regular-expression character classes over ASCII characters; and Python
exceptions with `Except String`. -/

/-! Duration parsing, `src/collector/_utils.py`.

`_parse_duration_pattern` scans the string with the regex
`(?:(?P<value>[\d\.]+)?\s*(?P<unit>[a-z]+)[\s\,]*)` (IGNORECASE), then sums
`float(value or 1) * multiplier` over all matches and rounds the total with
Python's `round` (round half to even). -/

/-- Characters of the regex class `[\d\.]` (the optional value capture). -/
def isValChar (c : Char) : Bool := c.isDigit || c = '.'

/-- ASCII whitespace, modelling the regex class `\s`. -/
def isSpaceChar (c : Char) : Bool :=
  c = ' ' || c = '\t' || c = '\n' || c = '\r' || c = '\x0b' || c = '\x0c'

/-- Characters of the unit capture `[a-z]+` under IGNORECASE. -/
def isUnitChar (c : Char) : Bool := c.isAlpha

/-- Characters of the trailing separator class `[\s\,]`. -/
def isTrailChar (c : Char) : Bool := isSpaceChar c || c = ','

/-- One attempt of the duration regex at the head of the input: an optional
greedy run of value characters, optional whitespace, a mandatory nonempty run
of letters, then trailing separators.  Returns the (value, unit) captures and
the remaining input, or `none` when no match starts here.  (When the letter
run is empty the regex backtracks over the optional value, but the position
then still holds a non-letter, so the whole attempt fails: returning `none`
is faithful.) -/
def matchAt (cs : List Char) : Option ((List Char × List Char) × List Char) :=
  let v := cs.takeWhile isValChar
  let r2 := (cs.dropWhile isValChar).dropWhile isSpaceChar
  let u := r2.takeWhile isUnitChar
  if u.isEmpty then none
  else some ((v, u), (r2.dropWhile isUnitChar).dropWhile isTrailChar)

/-- Fuelled worker for `findAll`: try a match at the current position, else
advance one character, exactly like `re.findall`'s scan loop.  Every
successful match consumes at least the one unit letter, so fuel equal to the
input length never runs out. -/
def findAllAux : Nat → List Char → List (List Char × List Char)
  | 0, _ => []
  | _ + 1, [] => []
  | fuel + 1, c :: cs =>
    match matchAt (c :: cs) with
    | some (m, rest) => m :: findAllAux fuel rest
    | none => findAllAux fuel cs

/-- All non-overlapping matches of the duration regex, left to right,
modelling `pattern.findall(duration)`. -/
def findAll (cs : List Char) : List (List Char × List Char) :=
  findAllAux cs.length cs

/-- Value of a decimal digit string read left to right. -/
def digitsToNat (cs : List Char) : Nat :=
  cs.foldl (fun a c => 10 * a + (c.toNat - 48)) 0

/-- Nearest integer to `num / den` (`den ≠ 0`), ties to even: the rounding
primitive shared by the binary64 model, Python's `round`, and the `Decimal`
context model. -/
def rndHalfEvenDiv (num : ℤ) (den : ℕ) : ℤ :=
  let f := Int.fdiv num den
  let r := num - f * den
  if 2 * r < (den : ℤ) then f
  else if (den : ℤ) < 2 * r then f + 1
  else if f % 2 = 0 then f else f + 1

/-- Fuelled floor of the base-2 logarithm (the fuel only bounds the
recursion depth; fuel `n` always suffices). -/
def ilog2Aux : ℕ → ℕ → ℕ
  | 0, _ => 0
  | fuel + 1, n => if 2 ≤ n then ilog2Aux fuel (n / 2) + 1 else 0

def ilog2 (n : ℕ) : ℕ := ilog2Aux n n

/-- Fuelled search for the least `j ≥ 1` with `b ≤ a * 2 ^ j` (used to place
the binary exponent of a ratio `a / b < 1`; fuel `b` always suffices). -/
def findScaleAux : ℕ → ℕ → ℕ → ℕ
  | 0, _, _ => 1
  | fuel + 1, a, b => if b ≤ a * 2 then 1 else findScaleAux fuel (a * 2) b + 1

def findScale (a b : ℕ) : ℕ := findScaleAux b a b

/-- A nonnegative Python float: an IEEE-754 binary64 value `m * 2 ^ e`.
The model keeps the 53-bit significand and its round-half-to-even semantics
but not the bounded exponent range (no overflow to infinity, no subnormal
loss): every float this parser meets lies well inside the normal range, and
the loop's values are all nonnegative (the regex admits no sign). -/
structure PyFloat where
  m : ℕ
  e : ℤ
deriving DecidableEq

/-- Round `m * 2 ^ e` to at most 53 significand bits, half to even: the
rounding every binary64 operation applies to its exact result. -/
def PyFloat.normalize (m : ℕ) (e : ℤ) : PyFloat :=
  if m < 2 ^ 53 then ⟨m, e⟩
  else
    let s := ilog2 m - 52
    ⟨(rndHalfEvenDiv m (2 ^ s)).toNat, e + s⟩

/-- The double nearest to a natural number (`float` of an integer-valued
decimal string, and Python's int-to-float conversion in `base * mult`). -/
def PyFloat.ofNat (n : ℕ) : PyFloat := PyFloat.normalize n 0

/-- The double nearest to `a / b` (`a, b ≠ 0`): scale the ratio into
`[2 ^ 52, 2 ^ 53)` by its binary magnitude and round the scaled ratio half
to even; `float(value)` for a fractional decimal string `a / 10 ^ k`
(CPython's string conversion is correctly rounded). -/
def PyFloat.ofFrac (a b : ℕ) : PyFloat :=
  if a = 0 then ⟨0, 0⟩
  else
    let e : ℤ := if b ≤ a then (ilog2 (a / b) : ℤ) else -(findScale a b : ℤ)
    let t : ℤ := 52 - e
    let m :=
      if 0 ≤ t then (rndHalfEvenDiv (a * 2 ^ t.toNat) b).toNat
      else (rndHalfEvenDiv a (b * 2 ^ (-t).toNat)).toNat
    PyFloat.normalize m (e - 52)

/-- Binary64 multiplication of nonnegative floats: the exact product,
rounded. -/
def PyFloat.mul (x y : PyFloat) : PyFloat :=
  PyFloat.normalize (x.m * y.m) (x.e + y.e)

/-- Binary64 addition of nonnegative floats: the exact aligned sum,
rounded. -/
def PyFloat.add (x y : PyFloat) : PyFloat :=
  let e := min x.e y.e
  PyFloat.normalize (x.m * 2 ^ (x.e - e).toNat + y.m * 2 ^ (y.e - e).toNat) e

/-- Python `round` on a nonnegative float: the nearest integer to its exact
value, ties to even. -/
def PyFloat.pyRound (x : PyFloat) : ℤ :=
  if 0 ≤ x.e then (x.m : ℤ) * 2 ^ x.e.toNat
  else rndHalfEvenDiv x.m (2 ^ (-x.e).toNat)

/-- Python `float(value)` on a string drawn from the class `[\d\.]+`: it
parses iff the string has at least one digit and at most one dot, and its
result is the binary64 value nearest to (integer part).(fraction part). -/
def parseValue (cs : List Char) : Option PyFloat :=
  if cs.all isValChar && cs.any Char.isDigit then
    match cs.dropWhile (fun c => !(c = '.')) with
    | [] => some (PyFloat.ofNat (digitsToNat cs))
    | _ :: frac =>
      if frac.all (fun c => !(c = '.')) then
        some (PyFloat.ofFrac
          (digitsToNat (cs.takeWhile (fun c => !(c = '.')) ++ frac))
          (10 ^ frac.length))
      else none
  else none

/-- ASCII lowercasing of one character, modelling how IGNORECASE makes the
unit patterns case-insensitive. -/
def charLower (c : Char) : Char :=
  if c.isUpper then Char.ofNat (c.toNat + 32) else c

/-- Seconds per unit: the `units` table of `_parse_duration_pattern`, whose
regexes `months?`, `w|weeks?`, `d|days?`, `h|hours?`, `m|min(?:ute)?s?` and
`s|sec(?:ond)?s?` are matched with `re.fullmatch` under IGNORECASE; `none`
models the `StopIteration` for an unrecognized unit. -/
def unitMultiplier (u : List Char) : Option Nat :=
  let l := u.map charLower
  if l ∈ (["month".data, "months".data] : List (List Char)) then some 2628000
  else if l ∈ (["w".data, "week".data, "weeks".data] : List (List Char)) then some 604800
  else if l ∈ (["d".data, "day".data, "days".data] : List (List Char)) then some 86400
  else if l ∈ (["h".data, "hour".data, "hours".data] : List (List Char)) then some 3600
  else if l ∈ (["m".data, "min".data, "mins".data, "minute".data, "minutes".data] :
      List (List Char)) then some 60
  else if l ∈ (["s".data, "sec".data, "secs".data, "second".data, "seconds".data] :
      List (List Char)) then some 1
  else none

/-- One iteration of the loop `for value, unit in pattern.findall(duration)`:
`base = float(value or 1)` (a `ValueError` when the value does not parse),
then the unit lookup (a `ValueError` for an unrecognized unit), then
`result += base * multiplier` in float arithmetic (the integer multiplier is
converted to the nearest float, the product and the sum each rounded). -/
def addMatch (acc : PyFloat) (m : List Char × List Char) :
    Except String PyFloat := do
  let base ← match (if m.1.isEmpty then some (PyFloat.ofNat 1) else parseValue m.1) with
    | some b => Except.ok b
    | none => Except.error "The value cannot be parsed as a number."
  match unitMultiplier m.2 with
  | some mult => Except.ok (acc.add (base.mul (PyFloat.ofNat mult)))
  | none => Except.error "Unrecognized unit."

/-- `_parse_duration_pattern` of `src/collector/_utils.py`: reject a string
the pattern never matches, otherwise sum the matched values in float
arithmetic and round the total with Python's `round`. -/
def _parse_duration_pattern (duration : String) : Except String ℤ := do
  if (findAll duration.data).isEmpty then
    Except.error "Invalid format of the duration string."
  else do
    let total ← (findAll duration.data).foldlM addMatch (⟨0, 0⟩ : PyFloat)
    Except.ok total.pyRound

/-- The argument of `parse_duration`: an integer or a string. -/
inductive DurationArg where
  | int (n : ℤ)
  | str (s : String)
deriving DecidableEq

/-- `parse_duration` of `src/collector/_utils.py`: an integer is returned as
is, a string goes through `_parse_duration_pattern`. -/
def parse_duration : DurationArg → Except String ℤ
  | .int n => Except.ok n
  | .str s => _parse_duration_pattern s

/-- Modelled from the spec: `parse_rate_limit` is imported by
`src/collector/_base/_transport.py` from `collector._utils` but its
definition is not among the repository's source files.  Spec section 6: a
string of the form `"<count> req/<unit>"` (for example `"10 req/s"`) is
parsed into the pair (max count, period in seconds); the unit is a duration
unit, so its period is what the duration parser gives the bare unit. -/
def splitOnChar (sep : Char) (cs : List Char) : List (List Char) :=
  cs.foldr
    (fun c acc =>
      match acc with
      | [] => [[c]]
      | g :: gs => if c = sep then [] :: (g :: gs) else (c :: g) :: gs)
    [[]]

/-- Modelled from the spec: `parse_rate_limit` is imported by
`src/collector/_base/_transport.py` from `collector._utils` but its
definition is not among the repository's source files.  Spec section 6: a
string of the form `"<count> req/<unit>"` (for example `"10 req/s"`) is
parsed into the pair (max count, period in seconds); the unit is a duration
unit, so its period is what the duration parser gives the bare unit. -/
def parse_rate_limit (s : String) : Except String (Nat × ℤ) := do
  match splitOnChar ' ' s.data with
  | [cnt, rest] =>
    match splitOnChar '/' rest with
    | [_, unit] =>
      if cnt ≠ [] && cnt.all Char.isDigit then do
        let period ← _parse_duration_pattern (String.mk unit)
        Except.ok (digitsToNat cnt, period)
      else Except.error "Invalid rate limit count."
    | _ => Except.error "Invalid rate limit format."
  | _ => Except.error "Invalid rate limit format."

/-! The caching rate-limited transport, `src/collector/_base/_transport.py`.

`ClientTransport.__init__` resolves the cache max age (`True` gives 86400,
`False` gives 0, anything else goes through `parse_duration`) and configures
the token-bucket limiter with `AsyncLimiter(*parse_rate_limit(rate_limit))`.
`handle_async_request` marks the request, rebuilds it as an `httpcore`
request, computes the cache key with the controller's key generator, and
acquires one limiter token only when the storage holds no entry for that
key.  The cache storage is modelled as an association list from keys to
entries, and the limiter by the count of tokens acquired so far; the
delegation to the wrapped HTTP transport is outside the model. -/

/-- The `cache` argument of `ClientTransport.__init__`: `bool | int | str`. -/
inductive CacheArg where
  | bool (b : Bool)
  | int (n : ℤ)
  | str (s : String)
deriving DecidableEq

/-- An incoming `httpx.Request` as the transport reads it: the fields the
handler passes to `httpcore.Request`, plus the extensions dictionary it
marks, kept as a list of flag names. -/
structure Request where
  method : String
  scheme : String
  host : String
  port : Option Nat
  target : String
  headers : List (String × String)
  extensions : List String
deriving DecidableEq

/-- The canonical request fingerprint: `hishel`'s controller key generator
is a deterministic digest of the `httpcore` request's method, URL and
headers; it is modelled as the canonical tuple itself (an injective stand-in
for the hash digest). -/
structure FingerprintKey where
  method : String
  scheme : String
  host : String
  port : Option Nat
  target : String
  headers : List (String × String)
deriving DecidableEq

/-- Step 3 of `handle_async_request`: rebuild the request for the key
computation from its method, scheme, host, port, target and headers. -/
def requestKey (r : Request) : FingerprintKey :=
  ⟨r.method, r.scheme, r.host, r.port, r.target, r.headers⟩

/-- The transport's constructed state: resolved cache max age, forced-cache
flag, and the token-bucket limiter's capacity and period. -/
structure ClientTransport where
  cacheMaxAge : ℤ
  forceCache : Bool
  limiterMaxRate : Nat
  limiterPeriod : ℤ
deriving DecidableEq

/-- `ClientTransport.__init__` with its `cache`, `follow_cache_control` and
`rate_limit` arguments (the retry count and proxy only feed the wrapped
transport and are outside the model): `bool` cache resolves to 86400 or 0,
otherwise `parse_duration` runs; the limiter is built from
`parse_rate_limit(rate_limit)`. -/
def ClientTransport.init (cache : CacheArg) (follow_cache_control : Bool)
    (rate_limit : String) : Except String ClientTransport :=
  (match cache with
    | .bool b => Except.ok (if b then (86400 : ℤ) else 0)
    | .int n => parse_duration (.int n)
    | .str s => parse_duration (.str s)) >>= fun maxAge =>
  parse_rate_limit rate_limit >>= fun lim =>
  Except.ok ⟨maxAge, !follow_cache_control, lim.1, lim.2⟩

/-- The mutable state `handle_async_request` touches: the on-disk cache
store (an association list from fingerprint keys to stored entries) and the
limiter, abstracted to how many tokens have been acquired from it. -/
structure TransportState where
  cacheStore : List (FingerprintKey × String)
  tokensAcquired : Nat
deriving DecidableEq

/-- `AsyncFileStorage.retrieve`: the stored entry for a key, or `none`. -/
def retrieve (store : List (FingerprintKey × String)) (k : FingerprintKey) :
    Option String :=
  (store.find? (fun e => e.1 = k)).map (fun e => e.2)

/-- `handle_async_request` up to the delegation to the wrapped transport:
mark the request (`cache_disabled` when caching is off, else `force_cache`
when cache-control is not followed), compute the fingerprint key, and
acquire one rate-limit token exactly when the store has no entry for the
key.  Returns the state after the limiter step and the marked request. -/
def ClientTransport.handle_async_request (t : ClientTransport)
    (st : TransportState) (req : Request) : TransportState × Request :=
  let req' :=
    if t.cacheMaxAge = 0 then
      { req with extensions := req.extensions ++ ["cache_disabled"] }
    else if t.forceCache then
      { req with extensions := req.extensions ++ ["force_cache"] }
    else req
  let key := requestKey req
  if (retrieve st.cacheStore key).isNone then
    ({ st with tokensAcquired := st.tokensAcquired + 1 }, req')
  else (st, req')

/-! The post-body model, `src/collector/_base/post.py`.

Markup (`lxml` element trees) is modelled by `Elem`, a first-child /
next-sibling forest mirroring `lxml`'s element structure: each node has a
tag, attributes, the text before its first child (`.text`), the text that
follows the element (`.tail`), its children and its next sibling.  Every
node additionally carries an address label standing for the Python object's
identity, so that `deepcopy` (fresh addresses everywhere) and in-place
mutation (rewriting the node with a given address) are expressible; the
addresses have no counterpart in the rendered markup and `Elem.erase` drops
them. -/

inductive Elem where
  | nil : Elem
  | node (addr : Nat) (tag : String) (attrs : List (String × String))
      (text : String) (tail : String) (children : Elem) (next : Elem) : Elem
deriving DecidableEq

/-- Addresses of every node of the forest. -/
def Elem.addrs : Elem → List Nat
  | .nil => []
  | .node a _ _ _ _ c n => a :: (c.addrs ++ n.addrs)

/-- Relabel every node with fresh addresses from a counter, as `deepcopy`
allocates fresh objects; returns the copy and the next unused counter. -/
def Elem.relabel : Elem → Nat → Elem × Nat
  | .nil, k => (.nil, k)
  | .node _ t at_ x tl c n, k =>
    let rc := c.relabel (k + 1)
    let rn := n.relabel rc.2
    (.node k t at_ x tl rc.1 rn.1, rn.2)

/-- Forget the addresses (set them all to 0): the pure markup content. -/
def Elem.erase : Elem → Elem
  | .nil => .nil
  | .node _ t at_ x tl c n => .node 0 t at_ x tl c.erase n.erase

/-- In-place mutation of a markup node through a reference to it: set the
text of every node whose address is `m`. -/
def Elem.setTextAt (m : Nat) (s : String) : Elem → Elem
  | .nil => .nil
  | .node a t at_ x tl c n =>
    .node a t at_ (if a = m then s else x) tl (c.setTextAt m s) (n.setTextAt m s)

/-- A content segment (`Segment` and its subclasses `Paragraph`, `Image`,
`Video`, `File`): the variant's fields from the source, plus an address
label standing for the Python object's identity.  `Paragraph` holds a
pre-built markup fragment; the media variants hold id, URL, display name and
their extra fields. -/
inductive Segment where
  | paragraph (addr : Nat) (text : Elem)
  | image (addr : Nat) (id : String) (url : String) (name : String)
      (thumbnail : Option String)
  | video (addr : Nat) (id : String) (url : String) (name : String)
  | file (addr : Nat) (id : String) (url : String) (name : String)
      (size : Option ℤ)
deriving DecidableEq

/-- String prefix test over the character lists, modelling Python
`str.startswith`. -/
def strStarts (pre s : String) : Bool := pre.data.isPrefixOf s.data

/-- A representative fragment of the Python standard library's
`mimetypes.types_map`, the table `mimetypes.guess_type` consults (an
external collaborator of `post.py`): the type mapped to the display name's
extension, lowercased; `none` when the name has no extension or an unknown
one.  The extension is the part after the last dot, provided some non-dot
character precedes that dot (`posixpath.splitext` semantics). -/
def extTable : List (List Char × String) :=
  [("png".data, "image/png"), ("jpg".data, "image/jpeg"),
   ("jpeg".data, "image/jpeg"), ("gif".data, "image/gif"),
   ("bmp".data, "image/bmp"), ("svg".data, "image/svg+xml"),
   ("mp4".data, "video/mp4"), ("mov".data, "video/quicktime"),
   ("avi".data, "video/x-msvideo"), ("mpeg".data, "video/mpeg"),
   ("pdf".data, "application/pdf"), ("txt".data, "text/plain"),
   ("zip".data, "application/zip"), ("mp3".data, "audio/mpeg")]

/-- `mimetypes.guess_type(name)[0]`, modelled over `extTable`. -/
def guess_type (name : String) : Option String :=
  let rev := name.data.reverse
  let revExt := rev.takeWhile (fun c => !(c = '.'))
  match rev.dropWhile (fun c => !(c = '.')) with
  | [] => none
  | _ :: before =>
    if before.any (fun c => !(c = '.')) then
      ((extTable.find? (fun e => e.1 = (revExt.reverse.map charLower))).map
        (fun e => e.2))
    else none

/-- `mime_type` of each variant: `Paragraph` is fixed to `text/html`;
`Image` and `Video` raise a `ValueError` when the type cannot be determined
from the name; `File` falls back to `application/octet-stream`. -/
def Segment.mimeType : Segment → Except String String
  | .paragraph _ _ => Except.ok "text/html"
  | .image _ _ _ name _ =>
    match guess_type name with
    | some t => Except.ok t
    | none => Except.error "Cannot determine the MIME type."
  | .video _ _ _ name =>
    match guess_type name with
    | some t => Except.ok t
    | none => Except.error "Cannot determine the MIME type."
  | .file _ _ _ name _ =>
    Except.ok ((guess_type name).getD "application/octet-stream")

/-- Construction of an `Image` segment: pydantic builds the object, then the
`_validate_mime_type` model validator reads `self.mime_type` (raising when
the type cannot be determined) and raises unless it starts with `image/`. -/
def Image.construct (addr : Nat) (id url name : String)
    (thumbnail : Option String) : Except String Segment :=
  match (Segment.image addr id url name thumbnail).mimeType with
  | .error e => .error e
  | .ok mime =>
    if strStarts "image/" mime then .ok (Segment.image addr id url name thumbnail)
    else .error "The image segment must be initialized with an image MIME type."

/-- Construction of a `Video` segment: as for `Image`, with `video/`. -/
def Video.construct (addr : Nat) (id url name : String) :
    Except String Segment :=
  match (Segment.video addr id url name).mimeType with
  | .error e => .error e
  | .ok mime =>
    if strStarts "video/" mime then .ok (Segment.video addr id url name)
    else .error "The video segment must be initialized with a video MIME type."

/-- Construction of a `File` segment: no model validator runs, so no MIME
check can fail. -/
def File.construct (addr : Nat) (id url name : String) (size : Option ℤ) :
    Segment :=
  Segment.file addr id url name size

/-- `html` of each variant: `Paragraph` returns its stored fragment, `Image`
an `img` element, `Video` a `video` element with a `source` child (reading
`self.mime_type`, which can raise for an unvalidated value), `File` an `a`
element with the name as its text. -/
def Segment.html : Segment → Except String Elem
  | .paragraph _ text => Except.ok text
  | .image _ id url name _ =>
    Except.ok (.node 0 "img" [("src", url), ("id", id), ("alt", name)] "" ""
      .nil .nil)
  | .video _ id url name => do
    let mime ← (Segment.video 0 id url name).mimeType
    Except.ok (.node 0 "video" [("id", id), ("controls", "controls")] "" ""
      (.node 0 "source" [("src", url), ("type", mime)] "" "" .nil .nil) .nil)
  | .file _ id url name _ =>
    Except.ok (.node 0 "a" [("href", url), ("id", id)] name "" .nil .nil)

/-! `PostBody`, a `list` subclass.  Its constructor is modelled as the
contents the new list holds; its `+` and `+=` operators are modelled over an
explicit store of list objects (an association list from the list object's
address to its contents), since their contract is about which objects they
mutate; `copy` is `deepcopy`, modelled by relabelling every address. -/

/-- The `segments` argument accepted by `PostBody.__init__`: nothing, a
single segment, another `PostBody`, or an iterable of segments. -/
inductive InitArg where
  | none
  | seg (s : Segment)
  | body (segs : List Segment)
  | iter (l : List Segment)
deriving DecidableEq

/-- `PostBody.__init__`: the contents of the newly constructed list.  The
first branch of the source executes `self = segments`, which only rebinds
the local name `self`, so a `PostBody` argument leaves the new list empty;
a single segment is appended; any other iterable is extended into the list;
`None` matches no branch. -/
def PostBody.init : InitArg → List Segment
  | .none => []
  | .body _ => []
  | .seg s => [s]
  | .iter l => l

/-- Addresses of a segment (its own label and its markup's labels). -/
def Segment.addrs : Segment → List Nat
  | .paragraph a text => a :: text.addrs
  | .image a _ _ _ _ => [a]
  | .video a _ _ _ => [a]
  | .file a _ _ _ _ => [a]

/-- Fresh relabelling of a segment, as `deepcopy` copies it. -/
def Segment.relabel : Segment → Nat → Segment × Nat
  | .paragraph _ text, k =>
    let rt := text.relabel (k + 1)
    (.paragraph k rt.1, rt.2)
  | .image _ id url name th, k => (.image k id url name th, k + 1)
  | .video _ id url name, k => (.video k id url name, k + 1)
  | .file _ id url name sz, k => (.file k id url name sz, k + 1)

/-- Forget a segment's addresses. -/
def Segment.erase : Segment → Segment
  | .paragraph _ text => .paragraph 0 text.erase
  | .image _ id url name th => .image 0 id url name th
  | .video _ id url name => .video 0 id url name
  | .file _ id url name sz => .file 0 id url name sz

/-- A mutation through a reference to an object with a given address: set a
markup node's text, or set a media segment's display name. -/
inductive Mut where
  | text (s : String)
  | name (s : String)
deriving DecidableEq

/-- Apply a mutation aimed at address `m` to a segment: a `name` mutation
rewrites a media segment labelled `m`; a `text` mutation rewrites the markup
nodes labelled `m` inside a paragraph. -/
def Segment.mutate (m : Nat) (u : Mut) : Segment → Segment
  | .paragraph a text =>
    match u with
    | .text s => .paragraph a (text.setTextAt m s)
    | .name _ => .paragraph a text
  | .image a id url name th =>
    match u with
    | .name s => .image a id url (if a = m then s else name) th
    | .text _ => .image a id url name th
  | .video a id url name =>
    match u with
    | .name s => .video a id url (if a = m then s else name)
    | .text _ => .video a id url name
  | .file a id url name sz =>
    match u with
    | .name s => .file a id url (if a = m then s else name) sz
    | .text _ => .file a id url name sz

/-- Fresh relabelling of a list of segments. -/
def relabelSegs : List Segment → Nat → List Segment × Nat
  | [], k => ([], k)
  | s :: rest, k =>
    let rs := s.relabel k
    let rr := relabelSegs rest rs.2
    (rs.1 :: rr.1, rr.2)

/-- A `PostBody` object: the list object's own address and its contents. -/
structure PostBodyObj where
  addr : Nat
  segs : List Segment
deriving DecidableEq

/-- All addresses reachable from a body: the list object's own and those of
its segments. -/
def PostBodyObj.addrs (b : PostBodyObj) : List Nat :=
  b.addr :: b.segs.flatMap Segment.addrs

/-- `PostBody.copy`, which is `deepcopy(self)`: a fresh list object holding
fresh copies of the segments; returns the copy and the next unused
counter. -/
def PostBodyObj.deepcopy (b : PostBodyObj) (k : Nat) : PostBodyObj × Nat :=
  let rs := relabelSegs b.segs (k + 1)
  (⟨k, rs.1⟩, rs.2)

/-- Forget every address of a body. -/
def PostBodyObj.erase (b : PostBodyObj) : PostBodyObj :=
  ⟨0, b.segs.map Segment.erase⟩

/-- Apply a mutation aimed at address `m` to a body's contents. -/
def PostBodyObj.mutate (m : Nat) (u : Mut) (b : PostBodyObj) : PostBodyObj :=
  ⟨b.addr, b.segs.map (Segment.mutate m u)⟩

/-- A store of `PostBody` list objects: each list object's address mapped to
its current contents. -/
abbrev BodyStore := List (Nat × List Segment)

/-- The contents of the list object at address `i`. -/
def lookupBody (st : BodyStore) (i : Nat) : Option (List Segment) :=
  (st.find? (fun e => e.1 = i)).map (fun e => e.2)

/-- Rebind the list object at address `i` to new contents. -/
def updateBody (st : BodyStore) (i : Nat) (v : List Segment) : BodyStore :=
  st.map (fun e => if e.1 = i then (i, v) else e)

/-- `PostBody.__add__` with another body: `result = self.copy()` (a deep
copy under a fresh list address `fresh`, relabelling from counter `ctr`),
then `result += other` extends the copy with the other body's segments (the
segment objects themselves, not copies), and the new object is returned.
Every existing binding of the store is left as it is. -/
def PostBody.addOp (st : BodyStore) (aId bId : Nat) (fresh ctr : Nat) :
    Option (BodyStore × Nat × Nat) := do
  let a ← lookupBody st aId
  let b ← lookupBody st bId
  let rs := relabelSegs a ctr
  some ((fresh, rs.1 ++ b) :: st, fresh, rs.2)

/-- `PostBody.__iadd__` with another body: `self.extend(other)` rebinds the
left object, in place, to its old contents followed by the other's. -/
def PostBody.iaddOp (st : BodyStore) (aId bId : Nat) : Option BodyStore := do
  let a ← lookupBody st aId
  let b ← lookupBody st bId
  some (updateBody st aId (a ++ b))

/-! The pixivFANBOX article builder, `Post._build_article_body` in
`src/collector/fanbox/models.py` (the variant the fanbox client imports).
Raw JSON blocks are modelled as structures whose optional keys are `Option`
fields; the builder allocates fresh Python objects whose identities play no
role here, so every address label it writes is 0. -/

/-- One entry of a block's style span list: `{type, offset, length}`. -/
structure RawStyle where
  type : String
  offset : Nat
  length : Nat
deriving DecidableEq

/-- Python slicing `text[a:b]` over the character list (clamping, empty when
`b ≤ a`). -/
def pySlice (cs : List Char) (a b : Nat) : List Char := (cs.drop a).take (b - a)

/-- An inline fragment of a paragraph: a plain string, or a string wrapped
in a `b` element by the `"bold"` style branch. -/
inductive Inline where
  | plain (s : String)
  | bold (s : String)
deriving DecidableEq

/-- One iteration of `_format_text`'s loop over the style spans: append the
plain text from the current index up to the span's offset, then the span's
text as a `b` element when its tag is `"bold"` and as plain text for any
other tag, and move the current index past the span. -/
def formatTextStep (text : List Char) (acc : List Inline × Nat) (st : RawStyle) :
    List Inline × Nat :=
  let pre := String.mk (pySlice text acc.2 st.offset)
  let formatted := String.mk (pySlice text st.offset (st.offset + st.length))
  let styled := if st.type = "bold" then Inline.bold formatted
    else Inline.plain formatted
  (acc.1 ++ [Inline.plain pre, styled], st.offset + st.length)

/-- `_format_text` of `Post._build_article_body`: when the block has a
`"style"` key, split its text left to right along the spans, appending the
trailing remainder when one is left; otherwise the text is one plain
fragment. -/
def _format_text (text : String) : Option (List RawStyle) → List Inline
  | none => [.plain text]
  | some styles =>
    let r := styles.foldl (formatTextStep text.data) ([], 0)
    if r.2 < text.data.length then
      r.1 ++ [.plain (String.mk (text.data.drop r.2))]
    else r.1

/-- Append a string after the last sibling of a forest, as the `lxml`
builder `E` does when a string argument follows child elements. -/
def Elem.appendTailLast (s : String) : Elem → Elem
  | .nil => .nil
  | .node a t at_ x tl c .nil => .node a t at_ x (tl ++ s) c .nil
  | .node a t at_ x tl c n => .node a t at_ x tl c (n.appendTailLast s)

/-- Append an element at the end of a forest's sibling chain. -/
def Elem.appendChildEnd : Elem → Elem → Elem
  | .nil, ch => ch
  | .node a t at_ x tl c n, ch => .node a t at_ x tl c (n.appendChildEnd ch)

/-- The `lxml` builder `E` consuming one argument: a string is appended to
the element's text when it has no children yet and to the last child's tail
otherwise; a `b` fragment is appended as a child element. -/
def addInline (e : Elem) (i : Inline) : Elem :=
  match e with
  | .nil => .nil
  | .node a t at_ x tl c n =>
    match i with
    | .plain s =>
      match c with
      | .nil => .node a t at_ (x ++ s) tl c n
      | _ => .node a t at_ x tl (c.appendTailLast s) n
    | .bold s =>
      .node a t at_ x tl (c.appendChildEnd (.node 0 "b" [] s "" .nil .nil)) n

/-- `E.<tag>(*items)`: build an element from inline fragments. -/
def mkMarkup (tag : String) (items : List Inline) : Elem :=
  items.foldl addInline (.node 0 tag [] "" "" .nil .nil)

/-- One entry of the raw `imageMap` side table. -/
structure RawImage where
  id : String
  originalUrl : String
  extension : String
  thumbnailUrl : String
deriving DecidableEq

/-- One entry of the raw `fileMap` side table. -/
structure RawFile where
  id : String
  name : String
  extension : String
  url : String
  size : ℤ
deriving DecidableEq

/-- One entry of the raw `urlEmbedMap` side table. -/
structure RawEmbed where
  host : String
  url : String
deriving DecidableEq

/-- A raw article block.  The `text` and id fields default to the empty
string when the raw JSON has no such key; the style spans appear as
`style` or `styles` depending on the raw payload, and both keys are carried
so that which one the builder reads is observable. -/
structure RawBlock where
  type : String
  text : String := ""
  style : Option (List RawStyle) := none
  styles : Option (List RawStyle) := none
  imageId : String := ""
  fileId : String := ""
  urlEmbedId : String := ""
deriving DecidableEq

/-- The raw `body` value of an article post: its block list and the three
side tables. -/
structure RawArticle where
  blocks : List RawBlock
  imageMap : List (String × RawImage) := []
  fileMap : List (String × RawFile) := []
  urlEmbedMap : List (String × RawEmbed) := []
deriving DecidableEq

/-- Raw dictionary lookup; `none` models a `KeyError`. -/
def lookupMap {α : Type} (m : List (String × α)) (k : String) : Option α :=
  (m.find? (fun e => e.1 = k)).map (fun e => e.2)

/-- One member of the list `_build_article_body` returns: a `Segment`, or
the bare `a` element the `url_embed` branch appends (the source appends the
`lxml` element itself, not a segment). -/
inductive BodyItem where
  | seg (s : Segment)
  | link (host : String) (url : String)
deriving DecidableEq

/-- `Post._build_article_body` of `src/collector/fanbox/models.py`: dispatch
on each block's type tag; `p` builds a paragraph from `_format_text` (which
reads the `style` key), `header` an `h2` paragraph, `url_embed` a bare link
element via the embed table, `image` an `Image` segment via the image table
(display name `id.extension`), `file` a `File` segment via the file table
(display name `name.extension`), and any other tag raises
`NotImplementedError`. -/
def Post._build_article_body (data : RawArticle) : Except String (List BodyItem) :=
  data.blocks.foldlM
    (fun acc block =>
      match block.type with
      | "p" => Except.ok (acc ++
          [.seg (.paragraph 0 (mkMarkup "p" (_format_text block.text block.style)))])
      | "header" => Except.ok (acc ++
          [.seg (.paragraph 0 (mkMarkup "h2" [.plain block.text]))])
      | "url_embed" =>
        match lookupMap data.urlEmbedMap block.urlEmbedId with
        | some em => Except.ok (acc ++ [.link em.host em.url])
        | none => Except.error "KeyError: urlEmbedMap"
      | "image" =>
        match lookupMap data.imageMap block.imageId with
        | some im => do
          let seg ← Image.construct 0 im.id im.originalUrl
            (im.id ++ "." ++ im.extension) (some im.thumbnailUrl)
          Except.ok (acc ++ [.seg seg])
        | none => Except.error "KeyError: imageMap"
      | "file" =>
        match lookupMap data.fileMap block.fileId with
        | some f => Except.ok (acc ++
            [.seg (File.construct 0 f.id f.url (f.name ++ "." ++ f.extension)
              (some f.size))])
        | none => Except.error "KeyError: fileMap"
      | _ => Except.error ("Unknown block type: " ++ block.type))
    []

/-! The money value `Price`, `src/collector/_base/models.py`.  A `Decimal`
is modelled by its coefficient-exponent representation; its arithmetic runs
under CPython's default context (28 significant digits, round half to even),
so an exact sum or difference wider than 28 digits is rounded.  The pydantic
field validation (`pattern=r"^[A-Z]{3}$"` on the currency, `decimal_places=2`
on the value, i.e. exponent at least -2) runs in `Price.validate`, while
every arithmetic operator builds its result with `model_construct`, which
runs no validation; `frozen=True` makes any field assignment on an existing
instance raise. -/

/-- A Python `Decimal`: the value `c * 10 ^ e` (coefficient and exponent,
mirroring `Decimal`'s internal triple; the sign lives in `c`).  The model is
value-faithful: a coefficient with trailing zeros may carry more digits than
`Decimal`'s canonical form, which never changes any rounded value. -/
structure Dec where
  c : ℤ
  e : ℤ
deriving DecidableEq

/-- The exact rational value of a `Decimal`. -/
def Dec.toRat (d : Dec) : ℚ := (d.c : ℚ) * (10 : ℚ) ^ d.e

/-- Fuelled decimal digit count of a coefficient (fuel `n` always
suffices; `Decimal` gives the zero coefficient one digit). -/
def numDigitsAux : ℕ → ℕ → ℕ
  | 0, _ => 1
  | fuel + 1, n => if 10 ≤ n then numDigitsAux fuel (n / 10) + 1 else 1

def numDigits (n : ℕ) : ℕ := numDigitsAux n n

/-- Rounding of an exact `Decimal` result by the default context: a
coefficient wider than 28 significant digits is rounded half to even at the
28th digit, the exponent absorbing the dropped places; a narrower result is
kept exactly. -/
def Dec.ctxRound (d : Dec) : Dec :=
  if numDigits d.c.natAbs ≤ 28 then d
  else
    let s := numDigits d.c.natAbs - 28
    ⟨rndHalfEvenDiv d.c (10 ^ s), d.e + s⟩

/-- `Decimal.__add__`: the exact sum on the smaller exponent's grid, then
context rounding. -/
def Dec.add (x y : Dec) : Dec :=
  let e := min x.e y.e
  Dec.ctxRound ⟨x.c * 10 ^ (x.e - e).toNat + y.c * 10 ^ (y.e - e).toNat, e⟩

/-- `Decimal.__sub__`: the exact difference on the smaller exponent's grid,
then context rounding. -/
def Dec.sub (x y : Dec) : Dec :=
  let e := min x.e y.e
  Dec.ctxRound ⟨x.c * 10 ^ (x.e - e).toNat - y.c * 10 ^ (y.e - e).toNat, e⟩

structure Price where
  currency : String
  value : Dec
deriving DecidableEq

/-- Validated construction of a `Price`: the currency must match
`^[A-Z]{3}$` and the value at most two decimal places (exponent at least
-2).  `Decimal` literal construction itself is exact whatever the context,
so wide coefficients pass as long as their exponent does. -/
def Price.validate (currency : String) (value : Dec) : Except String Price :=
  if currency.data.length = 3 && currency.data.all (fun c => 'A' ≤ c && c ≤ 'Z') then
    if -2 ≤ value.e then Except.ok ⟨currency, value⟩
    else Except.error "decimal_places"
  else Except.error "string_pattern_mismatch"

/-- `model_construct`: build an instance directly from field values, running
no validation, as every arithmetic operator of `Price` does. -/
def Price.model_construct (currency : String) (value : Dec) : Price :=
  ⟨currency, value⟩

/-- `Price.__eq__`: raises on different currencies, else compares the
values (`Decimal` comparison is exact and value-based). -/
def Price.eqOp (p q : Price) : Except String Bool :=
  if p.currency = q.currency then
    Except.ok (decide (p.value.toRat = q.value.toRat))
  else Except.error "Cannot compare prices with different currencies."

/-- `Price.__lt__`: raises on different currencies, else compares the
values exactly. -/
def Price.ltOp (p q : Price) : Except String Bool :=
  if p.currency = q.currency then
    Except.ok (decide (p.value.toRat < q.value.toRat))
  else Except.error "Cannot compare prices with different currencies."

/-- `Price.__add__` with a `Price` operand. -/
def Price.add (p q : Price) : Except String Price :=
  if p.currency = q.currency then
    Except.ok (Price.model_construct p.currency (p.value.add q.value))
  else Except.error "Cannot add prices with different currencies."

/-- `Price.__add__` with a plain numeric operand, already converted to a
`Decimal` as `Decimal(other)` does. -/
def Price.addNum (p : Price) (x : Dec) : Price :=
  Price.model_construct p.currency (p.value.add x)

/-- `Price.__radd__` (a number on the left): returns `self + other`. -/
def Price.raddNum (p : Price) (x : Dec) : Price := Price.addNum p x

/-- `Price.__iadd__` with a `Price` operand: returns `self + other`. -/
def Price.iadd (p q : Price) : Except String Price := Price.add p q

/-- `Price.__iadd__` with a numeric operand: returns `self + other`. -/
def Price.iaddNum (p : Price) (x : Dec) : Price := Price.addNum p x

/-- `Price.__sub__` with a `Price` operand. -/
def Price.sub (p q : Price) : Except String Price :=
  if p.currency = q.currency then
    Except.ok (Price.model_construct p.currency (p.value.sub q.value))
  else Except.error "Cannot subtract prices with different currencies."

/-- `Price.__sub__` with a plain numeric operand. -/
def Price.subNum (p : Price) (x : Dec) : Price :=
  Price.model_construct p.currency (p.value.sub x)

/-- `Price.__rsub__` with a `Price` operand (only reachable by a direct
call): `other.value - self.value` under `self`'s currency. -/
def Price.rsub (p q : Price) : Except String Price :=
  if p.currency = q.currency then
    Except.ok (Price.model_construct p.currency (q.value.sub p.value))
  else Except.error "Cannot subtract prices with different currencies."

/-- `Price.__rsub__` with a numeric operand (a number on the left):
`Decimal(other) - self.value` under `self`'s currency. -/
def Price.rsubNum (p : Price) (x : Dec) : Price :=
  Price.model_construct p.currency (x.sub p.value)

/-- `Price.__isub__` with a `Price` operand: returns `self - other`. -/
def Price.isub (p q : Price) : Except String Price := Price.sub p q

/-- `Price.__isub__` with a numeric operand: returns `self - other`. -/
def Price.isubNum (p : Price) (x : Dec) : Price := Price.subNum p x

/-- Field assignment on an existing instance: `model_config` sets
`frozen=True`, so pydantic raises for every assignment. -/
def Price.setAttr (p : Price) (field : String) (v : Dec) : Except String Price :=
  Except.error "Instance is frozen"

/-- The raw article block list of the end-to-end example: a header block
`"Hi"` and a paragraph block `"bold text"` whose bold span list sits under
the raw key `styles`. -/
def exampleArticleStylesKey : RawArticle :=
  { blocks := [
      { type := "header", text := "Hi" },
      { type := "p", text := "bold text", styles := some [⟨"bold", 0, 4⟩] }] }

/-- The same example with the span list under the key `style`, the key
`_format_text` actually reads. -/
def exampleArticleStyleKey : RawArticle :=
  { blocks := [
      { type := "header", text := "Hi" },
      { type := "p", text := "bold text", style := some [⟨"bold", 0, 4⟩] }] }

/-! Claim C1. -/

/-- C1: in `handle_async_request`, exactly one rate-limit token is acquired
exactly when the cache store holds no entry for the request's computed
fingerprint key; a cache hit leaves the limiter untouched. -/
theorem spec_c1 (t : ClientTransport) (st : TransportState) (req : Request) :
    (t.handle_async_request st req).1.tokensAcquired =
      st.tokensAcquired +
        (if (retrieve st.cacheStore (requestKey req)).isNone then 1 else 0) ∧
    ((retrieve st.cacheStore (requestKey req)).isSome →
      (t.handle_async_request st req).1.tokensAcquired = st.tokensAcquired) := by
  unfold ClientTransport.handle_async_request
  by_cases h : (retrieve st.cacheStore (requestKey req)).isNone
  · refine ⟨by simp [h], fun hs => ?_⟩
    rw [Option.isNone_iff_eq_none] at h
    rw [h] at hs
    simp at hs
  · exact ⟨by simp [h], fun _ => by simp [h]⟩

/-! Claim C2. -/

/-- C2: `PostBody.__init__` leaves the body empty for no argument, holds
exactly the given segment for a single segment, holds a collection's
segments in order, but holds nothing when given another `PostBody` (the
`self = segments` branch only rebinds a local name), contradicting the
specified normalization. -/
theorem spec_c2_init (s : Segment) (l : List Segment) :
    PostBody.init .none = [] ∧ PostBody.init (.seg s) = [s] ∧
    PostBody.init (.iter l) = l ∧ PostBody.init (.body [s]) = [] := by
  simp [PostBody.init]

/-! Claim C6. -/

/-- C6: for prices of equal currency exactly one of `p < q`, `p == q`,
`q < p` returns `True`; both comparison operators raise on a currency
mismatch instead of returning a boolean. -/
theorem spec_c6 :
    (∀ p q : Price, p.currency = q.currency →
      (p.ltOp q = .ok true ∧ p.eqOp q ≠ .ok true ∧ q.ltOp p ≠ .ok true) ∨
      (p.ltOp q ≠ .ok true ∧ p.eqOp q = .ok true ∧ q.ltOp p ≠ .ok true) ∨
      (p.ltOp q ≠ .ok true ∧ p.eqOp q ≠ .ok true ∧ q.ltOp p = .ok true)) ∧
    (∀ p q : Price, p.currency ≠ q.currency →
      (∃ e, p.eqOp q = .error e) ∧ (∃ e, p.ltOp q = .error e) ∧
      (∃ e, q.ltOp p = .error e)) := by
  constructor
  · intro p q h
    have hlt1 : p.ltOp q = .ok (decide (p.value.toRat < q.value.toRat)) := by
      unfold Price.ltOp
      rw [if_pos h]
    have hlt2 : q.ltOp p = .ok (decide (q.value.toRat < p.value.toRat)) := by
      unfold Price.ltOp
      rw [if_pos h.symm]
    have heq1 : p.eqOp q = .ok (decide (p.value.toRat = q.value.toRat)) := by
      unfold Price.eqOp
      rw [if_pos h]
    rw [hlt1, hlt2, heq1]
    rcases lt_trichotomy p.value.toRat q.value.toRat with hlt | heq | hgt
    · exact Or.inl (by simp [hlt, not_lt_of_gt hlt, ne_of_lt hlt])
    · exact Or.inr (Or.inl (by simp [heq, lt_irrefl]))
    · exact Or.inr (Or.inr (by simp [hgt, not_lt_of_gt hgt, (ne_of_lt hgt).symm]))
  · intro p q h
    have h2 : q.currency ≠ p.currency := fun hq => h hq.symm
    refine ⟨⟨"Cannot compare prices with different currencies.", ?_⟩,
      ⟨"Cannot compare prices with different currencies.", ?_⟩,
      ⟨"Cannot compare prices with different currencies.", ?_⟩⟩
    · unfold Price.eqOp
      rw [if_neg h]
    · unfold Price.ltOp
      rw [if_neg h]
    · unfold Price.ltOp
      rw [if_neg h2]

/-! Claim C10. -/

/-- Regrouping a power of ten from a grid exponent back to the operand's
exponent. -/
theorem pow_toNat_mul (e1 e2 : ℤ) (h : e2 ≤ e1) :
    ((10 : ℚ) ^ (e1 - e2).toNat) * (10 : ℚ) ^ e2 = (10 : ℚ) ^ e1 := by
  rw [← zpow_natCast (10 : ℚ) (e1 - e2).toNat,
    Int.toNat_of_nonneg (sub_nonneg.mpr h),
    ← zpow_add₀ (by norm_num : (10 : ℚ) ≠ 0)]
  congr 1
  ring

/-- `Decimal` addition is exact whenever the exact sum fits the context's
28 significant digits. -/
theorem Dec.add_exact (x y : Dec)
    (h : numDigits (x.c * 10 ^ (x.e - min x.e y.e).toNat +
      y.c * 10 ^ (y.e - min x.e y.e).toNat).natAbs ≤ 28) :
    (x.add y).toRat = x.toRat + y.toRat := by
  have hctx : Dec.ctxRound ⟨x.c * 10 ^ (x.e - min x.e y.e).toNat +
      y.c * 10 ^ (y.e - min x.e y.e).toNat, min x.e y.e⟩ =
      ⟨x.c * 10 ^ (x.e - min x.e y.e).toNat +
        y.c * 10 ^ (y.e - min x.e y.e).toNat, min x.e y.e⟩ := by
    unfold Dec.ctxRound
    rw [if_pos h]
  show (Dec.ctxRound ⟨x.c * 10 ^ (x.e - min x.e y.e).toNat +
    y.c * 10 ^ (y.e - min x.e y.e).toNat, min x.e y.e⟩).toRat = _
  rw [hctx]
  unfold Dec.toRat
  push_cast
  rw [add_mul, mul_assoc, mul_assoc,
    pow_toNat_mul x.e (min x.e y.e) (min_le_left x.e y.e),
    pow_toNat_mul y.e (min x.e y.e) (min_le_right x.e y.e)]

/-- `Decimal` subtraction is exact whenever the exact difference fits the
context's 28 significant digits. -/
theorem Dec.sub_exact (x y : Dec)
    (h : numDigits (x.c * 10 ^ (x.e - min x.e y.e).toNat -
      y.c * 10 ^ (y.e - min x.e y.e).toNat).natAbs ≤ 28) :
    (x.sub y).toRat = x.toRat - y.toRat := by
  have hctx : Dec.ctxRound ⟨x.c * 10 ^ (x.e - min x.e y.e).toNat -
      y.c * 10 ^ (y.e - min x.e y.e).toNat, min x.e y.e⟩ =
      ⟨x.c * 10 ^ (x.e - min x.e y.e).toNat -
        y.c * 10 ^ (y.e - min x.e y.e).toNat, min x.e y.e⟩ := by
    unfold Dec.ctxRound
    rw [if_pos h]
  show (Dec.ctxRound ⟨x.c * 10 ^ (x.e - min x.e y.e).toNat -
    y.c * 10 ^ (y.e - min x.e y.e).toNat, min x.e y.e⟩).toRat = _
  rw [hctx]
  unfold Dec.toRat
  push_cast
  rw [sub_mul, mul_assoc, mul_assoc,
    pow_toNat_mul x.e (min x.e y.e) (min_le_left x.e y.e),
    pow_toNat_mul y.e (min x.e y.e) (min_le_right x.e y.e)]

/-- C10 as stated fails on the code: `Decimal` arithmetic runs under the
default 28-significant-digit context, so adding `Decimal('0.01')` to the
validly constructed price `Decimal('1000000000000000000000000000.01')`
(coefficient `10^29 + 1`, exponent -2) rounds the 30-digit exact sum to
`1E+27`, not the exact decimal sum. -/
theorem spec_c10_counterexample :
    Price.validate "USD" ⟨10 ^ 29 + 1, -2⟩ =
      .ok (Price.model_construct "USD" ⟨10 ^ 29 + 1, -2⟩) ∧
    Price.validate "USD" ⟨1, -2⟩ = .ok (Price.model_construct "USD" ⟨1, -2⟩) ∧
    Price.add (Price.model_construct "USD" ⟨10 ^ 29 + 1, -2⟩)
        (Price.model_construct "USD" ⟨1, -2⟩) =
      .ok (Price.model_construct "USD" ⟨10 ^ 27, 0⟩) ∧
    Dec.toRat ⟨10 ^ 27, 0⟩ ≠ Dec.toRat ⟨10 ^ 29 + 1, -2⟩ + Dec.toRat ⟨1, -2⟩ := by
  refine ⟨by decide, by decide, by decide, ?_⟩
  unfold Dec.toRat
  simp only
  norm_num [zpow_neg]

/-- C10 amended: `Price` is frozen (field assignment raises), and every
arithmetic operator returns a fresh `Price` built with `model_construct`
(hence without re-running construction-time validation) that carries the
`Price` operand's currency and the `Decimal`-context sum or difference of
the values — exact whenever the exact result fits the context's 28
significant digits, rounded half to even at the 28th digit otherwise; the
final conjunct exhibits an addition whose result would fail validation and
is still produced. -/
theorem spec_c10 :
    (∀ (p : Price) (f : String) (v : Dec),
      Price.setAttr p f v = .error "Instance is frozen") ∧
    (∀ p q : Price, p.currency = q.currency →
      Price.add p q = .ok (Price.model_construct p.currency (p.value.add q.value)) ∧
      Price.iadd p q = .ok (Price.model_construct p.currency (p.value.add q.value)) ∧
      Price.sub p q = .ok (Price.model_construct p.currency (p.value.sub q.value)) ∧
      Price.isub p q = .ok (Price.model_construct p.currency (p.value.sub q.value)) ∧
      Price.rsub p q = .ok (Price.model_construct p.currency (q.value.sub p.value))) ∧
    (∀ (p : Price) (x : Dec),
      Price.addNum p x = Price.model_construct p.currency (p.value.add x) ∧
      Price.raddNum p x = Price.model_construct p.currency (p.value.add x) ∧
      Price.iaddNum p x = Price.model_construct p.currency (p.value.add x) ∧
      Price.subNum p x = Price.model_construct p.currency (p.value.sub x) ∧
      Price.isubNum p x = Price.model_construct p.currency (p.value.sub x) ∧
      Price.rsubNum p x = Price.model_construct p.currency (x.sub p.value)) ∧
    (∀ x y : Dec, numDigits (x.c * 10 ^ (x.e - min x.e y.e).toNat +
        y.c * 10 ^ (y.e - min x.e y.e).toNat).natAbs ≤ 28 →
      (x.add y).toRat = x.toRat + y.toRat) ∧
    (∀ x y : Dec, numDigits (x.c * 10 ^ (x.e - min x.e y.e).toNat -
        y.c * 10 ^ (y.e - min x.e y.e).toNat).natAbs ≤ 28 →
      (x.sub y).toRat = x.toRat - y.toRat) ∧
    (Price.addNum (Price.model_construct "USD" ⟨100, -2⟩) ⟨1, -3⟩ =
      Price.model_construct "USD" ⟨1001, -3⟩ ∧
      ∃ e, Price.validate "USD" ⟨1001, -3⟩ = .error e) := by
  refine ⟨fun p f v => rfl, ?_, ?_, Dec.add_exact, Dec.sub_exact, ?_, ?_⟩
  · intro p q h
    simp [Price.add, Price.iadd, Price.sub, Price.isub, Price.rsub, h]
  · intro p x
    simp [Price.addNum, Price.raddNum, Price.iaddNum, Price.subNum,
      Price.isubNum, Price.rsubNum]
  · decide
  · exact ⟨"decimal_places", by decide⟩

/-! Claim C5. -/

/-- Success characterization of `Image` construction: it returns a segment
exactly when the name's guessed type exists and is in the `image/`
category. -/
theorem imageConstruct_ok_iff (a : Nat) (i u n : String) (th : Option String)
    (s : Segment) :
    Image.construct a i u n th = .ok s ↔
      ∃ t, guess_type n = some t ∧ strStarts "image/" t = true ∧
        s = Segment.image a i u n th := by
  unfold Image.construct
  simp only [Segment.mimeType]
  cases hg : guess_type n with
  | none => simp
  | some t =>
    by_cases hs : strStarts "image/" t = true
    · simp only [hs, if_true]
      constructor
      · intro h
        exact ⟨t, rfl, hs, (Except.ok.inj h).symm⟩
      · rintro ⟨t1, ht1, hs1, rfl⟩
        rfl
    · simp only [hs, if_false]
      constructor
      · intro h
        cases h
      · rintro ⟨t1, ht1, hs1, rfl⟩
        cases ht1
        exact absurd hs1 hs

/-- Success characterization of `Video` construction. -/
theorem videoConstruct_ok_iff (a : Nat) (i u n : String) (s : Segment) :
    Video.construct a i u n = .ok s ↔
      ∃ t, guess_type n = some t ∧ strStarts "video/" t = true ∧
        s = Segment.video a i u n := by
  unfold Video.construct
  simp only [Segment.mimeType]
  cases hg : guess_type n with
  | none => simp
  | some t =>
    by_cases hs : strStarts "video/" t = true
    · simp only [hs, if_true]
      constructor
      · intro h
        exact ⟨t, rfl, hs, (Except.ok.inj h).symm⟩
      · rintro ⟨t1, ht1, hs1, rfl⟩
        rfl
    · simp only [hs, if_false]
      constructor
      · intro h
        cases h
      · rintro ⟨t1, ht1, hs1, rfl⟩
        cases ht1
        exact absurd hs1 hs

/-- C5: a successfully constructed `Image` segment always carries a MIME
type of the `image/` category, and construction fails when the name's type
cannot be determined or is not an image type; the same holds for `Video`
with `video/`; a `File` segment's construction cannot fail and its MIME type
falls back to `application/octet-stream` when undetermined. -/
theorem spec_c5 :
    (∀ (a : Nat) (i u n : String) (th : Option String) (s : Segment),
      Image.construct a i u n th = .ok s →
      ∃ t, guess_type n = some t ∧ strStarts "image/" t = true ∧
        s.mimeType = .ok t ∧ s = .image a i u n th) ∧
    (∀ (a : Nat) (i u n : String) (th : Option String),
      (∀ t, guess_type n = some t → strStarts "image/" t = false) →
      ∃ e, Image.construct a i u n th = .error e) ∧
    (∀ (a : Nat) (i u n : String) (s : Segment),
      Video.construct a i u n = .ok s →
      ∃ t, guess_type n = some t ∧ strStarts "video/" t = true ∧
        s.mimeType = .ok t ∧ s = .video a i u n) ∧
    (∀ (a : Nat) (i u n : String),
      (∀ t, guess_type n = some t → strStarts "video/" t = false) →
      ∃ e, Video.construct a i u n = .error e) ∧
    (∀ (a : Nat) (i u n : String) (sz : Option ℤ),
      File.construct a i u n sz = Segment.file a i u n sz ∧
      (Segment.file a i u n sz).mimeType =
        .ok ((guess_type n).getD "application/octet-stream")) := by
  refine ⟨?_, ?_, ?_, ?_, fun a i u n sz => ⟨rfl, rfl⟩⟩
  · intro a i u n th s hok
    rw [imageConstruct_ok_iff] at hok
    obtain ⟨t, hg, hs, rfl⟩ := hok
    exact ⟨t, hg, hs, by simp [Segment.mimeType, hg], rfl⟩
  · intro a i u n th hbad
    unfold Image.construct
    simp only [Segment.mimeType]
    cases hg : guess_type n with
    | none => exact ⟨"Cannot determine the MIME type.", rfl⟩
    | some t =>
      refine ⟨"The image segment must be initialized with an image MIME type.", ?_⟩
      simp [hbad t hg]
  · intro a i u n s hok
    rw [videoConstruct_ok_iff] at hok
    obtain ⟨t, hg, hs, rfl⟩ := hok
    exact ⟨t, hg, hs, by simp [Segment.mimeType, hg], rfl⟩
  · intro a i u n hbad
    unfold Video.construct
    simp only [Segment.mimeType]
    cases hg : guess_type n with
    | none => exact ⟨"Cannot determine the MIME type.", rfl⟩
    | some t =>
      refine ⟨"The video segment must be initialized with a video MIME type.", ?_⟩
      simp [hbad t hg]

/-! Claim C3. -/

/-- Relabelling a segment list preserves its length. -/
theorem relabelSegs_length (l : List Segment) (k : Nat) :
    (relabelSegs l k).1.length = l.length := by
  induction l generalizing k with
  | nil => rfl
  | cons s rest ih => simp [relabelSegs, ih]

/-- Looking up the address bound at the head of the store. -/
theorem lookupBody_cons_self (st : BodyStore) (e : Nat × List Segment) :
    lookupBody (e :: st) e.1 = some e.2 := by
  simp [lookupBody, List.find?_cons]

/-- Looking up a different address skips the head binding. -/
theorem lookupBody_cons_ne (st : BodyStore) (e : Nat × List Segment) (j : Nat)
    (h : j ≠ e.1) : lookupBody (e :: st) j = lookupBody st j := by
  have hne : ¬ (e.1 = j) := fun hx => h hx.symm
  simp [lookupBody, List.find?_cons, hne]

/-- A successful lookup means the store holds a binding of that address. -/
theorem lookupBody_mem_ids {st : BodyStore} {i : Nat} {A : List Segment}
    (h : lookupBody st i = some A) : ∃ e ∈ st, e.1 = i := by
  unfold lookupBody at h
  obtain ⟨e, he, _⟩ := Option.map_eq_some'.mp h
  refine ⟨e, List.mem_of_find?_eq_some he, ?_⟩
  have hp := List.find?_some he
  simpa using hp

/-- Rebinding address `i` makes its lookup return the new contents, provided
the store holds a binding of `i`. -/
theorem lookupBody_update_self (st : BodyStore) (i : Nat)
    (v A : List Segment) (h : lookupBody st i = some A) :
    lookupBody (updateBody st i v) i = some v := by
  induction st with
  | nil => simp [lookupBody] at h
  | cons e rest ih =>
    show lookupBody ((if e.1 = i then (i, v) else e) :: updateBody rest i v) i =
      some v
    by_cases he : e.1 = i
    · rw [if_pos he]
      exact lookupBody_cons_self (updateBody rest i v) (i, v)
    · have hne : i ≠ e.1 := fun hx => he hx.symm
      rw [lookupBody_cons_ne rest e i hne] at h
      rw [if_neg he, lookupBody_cons_ne (updateBody rest i v) e i hne]
      exact ih h

/-- Rebinding address `i` leaves every other lookup unchanged. -/
theorem lookupBody_update_ne (st : BodyStore) (i j : Nat) (v : List Segment)
    (h : j ≠ i) : lookupBody (updateBody st i v) j = lookupBody st j := by
  induction st with
  | nil => rfl
  | cons e rest ih =>
    show lookupBody ((if e.1 = i then (i, v) else e) :: updateBody rest i v) j = _
    by_cases he : e.1 = i
    · rw [if_pos he, lookupBody_cons_ne (updateBody rest i v) (i, v) j h,
        lookupBody_cons_ne rest e j (fun hx => h (hx.trans he))]
      exact ih
    · rw [if_neg he]
      by_cases hje : j = e.1
      · rw [hje, lookupBody_cons_self (updateBody rest i v) e,
          lookupBody_cons_self rest e]
      · rw [lookupBody_cons_ne (updateBody rest i v) e j hje,
          lookupBody_cons_ne rest e j hje]
        exact ih

/-- C3: for bodies `a` and `b` in the store, `a + b` binds a fresh list
whose length is `len(a) + len(b)` while the bindings of `a` and `b` are
unchanged, and `a += b` rebinds `a` itself, in place, to `a`'s original
elements followed by `b`'s (with `b` unchanged when it is a different
object). -/
theorem spec_c3 (st : BodyStore) (aId bId fresh ctr : Nat)
    (A B : List Segment) (ha : lookupBody st aId = some A)
    (hb : lookupBody st bId = some B) (hf : ∀ e ∈ st, e.1 ≠ fresh) :
    (∃ st2 ctr2, PostBody.addOp st aId bId fresh ctr = some (st2, fresh, ctr2) ∧
      (∃ C, lookupBody st2 fresh = some C ∧ C.length = A.length + B.length) ∧
      lookupBody st2 aId = some A ∧ lookupBody st2 bId = some B) ∧
    PostBody.iaddOp st aId bId = some (updateBody st aId (A ++ B)) ∧
    lookupBody (updateBody st aId (A ++ B)) aId = some (A ++ B) ∧
    (bId ≠ aId → lookupBody (updateBody st aId (A ++ B)) bId = some B) := by
  have haf : aId ≠ fresh := by
    obtain ⟨e, hmem, heq⟩ := lookupBody_mem_ids ha
    exact heq ▸ hf e hmem
  have hbf : bId ≠ fresh := by
    obtain ⟨e, hmem, heq⟩ := lookupBody_mem_ids hb
    exact heq ▸ hf e hmem
  refine ⟨⟨(fresh, (relabelSegs A ctr).1 ++ B) :: st, (relabelSegs A ctr).2,
    ?_, ⟨(relabelSegs A ctr).1 ++ B,
      lookupBody_cons_self st (fresh, (relabelSegs A ctr).1 ++ B), ?_⟩,
    ?_, ?_⟩, ?_, ?_, ?_⟩
  · unfold PostBody.addOp
    rw [ha, hb]
    rfl
  · simp [relabelSegs_length]
  · rw [lookupBody_cons_ne st (fresh, (relabelSegs A ctr).1 ++ B) aId haf]
    exact ha
  · rw [lookupBody_cons_ne st (fresh, (relabelSegs A ctr).1 ++ B) bId hbf]
    exact hb
  · unfold PostBody.iaddOp
    rw [ha, hb]
    rfl
  · exact lookupBody_update_self st aId _ A ha
  · intro hba
    rw [lookupBody_update_ne st aId bId _ hba]
    exact hb

/-- Concrete instantiation of the `PostBody` concatenation contract. -/
theorem spec_c3_witness :
    (∃ st2 ctr2,
      PostBody.addOp
        [(0, [Segment.file 10 "f" "u" "n" none]),
         (1, [Segment.video 11 "v" "u" "a.mp4", Segment.file 12 "g" "u" "m" none])]
        0 1 7 100 = some (st2, 7, ctr2) ∧
      (∃ C, lookupBody st2 7 = some C ∧
        C.length = [Segment.file 10 "f" "u" "n" none].length +
          [Segment.video 11 "v" "u" "a.mp4",
           Segment.file 12 "g" "u" "m" none].length) ∧
      lookupBody st2 0 = some [Segment.file 10 "f" "u" "n" none] ∧
      lookupBody st2 1 = some [Segment.video 11 "v" "u" "a.mp4",
        Segment.file 12 "g" "u" "m" none]) ∧
    PostBody.iaddOp
      [(0, [Segment.file 10 "f" "u" "n" none]),
       (1, [Segment.video 11 "v" "u" "a.mp4", Segment.file 12 "g" "u" "m" none])]
      0 1 = some (updateBody
        [(0, [Segment.file 10 "f" "u" "n" none]),
         (1, [Segment.video 11 "v" "u" "a.mp4", Segment.file 12 "g" "u" "m" none])]
        0 ([Segment.file 10 "f" "u" "n" none] ++
          [Segment.video 11 "v" "u" "a.mp4", Segment.file 12 "g" "u" "m" none])) ∧
    lookupBody (updateBody
      [(0, [Segment.file 10 "f" "u" "n" none]),
       (1, [Segment.video 11 "v" "u" "a.mp4", Segment.file 12 "g" "u" "m" none])]
      0 ([Segment.file 10 "f" "u" "n" none] ++
        [Segment.video 11 "v" "u" "a.mp4", Segment.file 12 "g" "u" "m" none])) 0 =
      some ([Segment.file 10 "f" "u" "n" none] ++
        [Segment.video 11 "v" "u" "a.mp4", Segment.file 12 "g" "u" "m" none]) ∧
    ((1 : Nat) ≠ 0 → lookupBody (updateBody
      [(0, [Segment.file 10 "f" "u" "n" none]),
       (1, [Segment.video 11 "v" "u" "a.mp4", Segment.file 12 "g" "u" "m" none])]
      0 ([Segment.file 10 "f" "u" "n" none] ++
        [Segment.video 11 "v" "u" "a.mp4", Segment.file 12 "g" "u" "m" none])) 1 =
      some [Segment.video 11 "v" "u" "a.mp4", Segment.file 12 "g" "u" "m" none]) :=
  spec_c3 _ 0 1 7 100 _ _ (by decide) (by decide) (by decide)

/-! Claim C4. -/

/-- Relabelling never decreases the fresh counter. -/
theorem elemRelabel_counter_le (e : Elem) : ∀ k : Nat, k ≤ (e.relabel k).2 := by
  induction e with
  | nil => intro k; exact le_refl k
  | node a t at_ x tl c n ihc ihn =>
    intro k
    show k ≤ (n.relabel ((c.relabel (k + 1)).2)).2
    exact le_trans (le_trans (Nat.le_succ k) (ihc (k + 1))) (ihn _)

/-- Every address of a relabelled forest lies in the window the counter
moved through. -/
theorem elemRelabel_addrs_bound (e : Elem) : ∀ k x : Nat,
    x ∈ (e.relabel k).1.addrs → k ≤ x ∧ x < (e.relabel k).2 := by
  induction e with
  | nil => intro k x hx; simp [Elem.relabel, Elem.addrs] at hx
  | node a t at_ x0 tl c n ihc ihn =>
    intro k x hx
    have hshape : (Elem.relabel (.node a t at_ x0 tl c n) k).1.addrs =
        k :: ((c.relabel (k + 1)).1.addrs ++
          (n.relabel (c.relabel (k + 1)).2).1.addrs) := rfl
    rw [hshape] at hx
    have h2 : (Elem.relabel (.node a t at_ x0 tl c n) k).2 =
        (n.relabel (c.relabel (k + 1)).2).2 := rfl
    rw [h2]
    rcases List.mem_cons.mp hx with rfl | hx2
    · refine ⟨le_refl x, ?_⟩
      calc x < x + 1 := Nat.lt_succ_self x
        _ ≤ (c.relabel (x + 1)).2 := elemRelabel_counter_le c (x + 1)
        _ ≤ (n.relabel ((c.relabel (x + 1)).2)).2 := elemRelabel_counter_le n _
    · rcases List.mem_append.mp hx2 with hc | hn
      · obtain ⟨h1, hlt⟩ := ihc (k + 1) x hc
        exact ⟨le_trans (Nat.le_succ k) h1,
          lt_of_lt_of_le hlt (elemRelabel_counter_le n _)⟩
      · obtain ⟨h1, hlt⟩ := ihn _ x hn
        exact ⟨le_trans (le_trans (Nat.le_succ k)
          (elemRelabel_counter_le c _)) h1, hlt⟩

/-- Relabelling changes only the addresses, not the markup. -/
theorem elemRelabel_erase (e : Elem) : ∀ k : Nat,
    (e.relabel k).1.erase = e.erase := by
  induction e with
  | nil => intro k; rfl
  | node a t at_ x0 tl c n ihc ihn =>
    intro k
    show Elem.node 0 t at_ x0 tl ((c.relabel (k + 1)).1.erase)
        ((n.relabel ((c.relabel (k + 1)).2)).1.erase) =
      Elem.node 0 t at_ x0 tl c.erase n.erase
    rw [ihc, ihn]

/-- A text mutation aimed at an address a forest does not contain leaves the
forest unchanged. -/
theorem Elem.setTextAt_not_mem (m : Nat) (s : String) (e : Elem)
    (h : m ∉ e.addrs) : e.setTextAt m s = e := by
  induction e with
  | nil => rfl
  | node a t at_ x tl c n ihc ihn =>
    simp only [Elem.addrs, List.mem_cons, List.mem_append] at h
    push_neg at h
    obtain ⟨ham, hcm, hnm⟩ := h
    simp only [Elem.setTextAt]
    rw [if_neg (fun hx => ham hx.symm), ihc hcm, ihn hnm]

/-- Relabelling a segment never decreases the fresh counter. -/
theorem segRelabel_counter_le (s : Segment) (k : Nat) :
    k ≤ (s.relabel k).2 := by
  cases s with
  | paragraph a text =>
    exact le_trans (Nat.le_succ k) (elemRelabel_counter_le text (k + 1))
  | image a i u nm th => exact Nat.le_succ k
  | video a i u nm => exact Nat.le_succ k
  | file a i u nm sz => exact Nat.le_succ k

/-- Every address of a relabelled segment lies in the counter's window. -/
theorem segRelabel_addrs_bound (s : Segment) (k x : Nat)
    (hx : x ∈ (s.relabel k).1.addrs) : k ≤ x ∧ x < (s.relabel k).2 := by
  cases s with
  | paragraph a text =>
    rcases List.mem_cons.mp hx with rfl | hx2
    · exact ⟨le_refl x,
        lt_of_lt_of_le (Nat.lt_succ_self x) (elemRelabel_counter_le text (x + 1))⟩
    · obtain ⟨h1, h2⟩ := elemRelabel_addrs_bound text (k + 1) x hx2
      exact ⟨le_trans (Nat.le_succ k) h1, h2⟩
  | image a i u nm th =>
    simp [Segment.relabel, Segment.addrs] at hx
    cases hx
    exact ⟨le_refl k, Nat.lt_succ_self k⟩
  | video a i u nm =>
    simp [Segment.relabel, Segment.addrs] at hx
    cases hx
    exact ⟨le_refl k, Nat.lt_succ_self k⟩
  | file a i u nm sz =>
    simp [Segment.relabel, Segment.addrs] at hx
    cases hx
    exact ⟨le_refl k, Nat.lt_succ_self k⟩

/-- Relabelling a segment changes only its addresses. -/
theorem segRelabel_erase (s : Segment) (k : Nat) :
    (s.relabel k).1.erase = s.erase := by
  cases s <;> simp [Segment.relabel, Segment.erase, elemRelabel_erase]

/-- A mutation aimed at an address a segment does not carry leaves the
segment unchanged. -/
theorem Segment.mutate_not_mem (m : Nat) (u : Mut) (s : Segment)
    (h : m ∉ s.addrs) : s.mutate m u = s := by
  cases s with
  | paragraph a text =>
    have htext : m ∉ text.addrs := by
      simp only [Segment.addrs, List.mem_cons] at h
      exact fun hx => h (Or.inr hx)
    cases u with
    | text s' =>
      simp only [Segment.mutate]
      rw [Elem.setTextAt_not_mem m s' text htext]
    | name _ => rfl
  | image a i u' nm th =>
    have ham : ¬ (a = m) := by
      simp only [Segment.addrs, List.mem_singleton] at h
      exact fun hx => h hx.symm
    cases u with
    | name s' => simp [Segment.mutate, ham]
    | text _ => rfl
  | video a i u' nm =>
    have ham : ¬ (a = m) := by
      simp only [Segment.addrs, List.mem_singleton] at h
      exact fun hx => h hx.symm
    cases u with
    | name s' => simp [Segment.mutate, ham]
    | text _ => rfl
  | file a i u' nm sz =>
    have ham : ¬ (a = m) := by
      simp only [Segment.addrs, List.mem_singleton] at h
      exact fun hx => h hx.symm
    cases u with
    | name s' => simp [Segment.mutate, ham]
    | text _ => rfl

/-- Relabelling a segment list never decreases the fresh counter. -/
theorem relabelSegs_counter_le (l : List Segment) : ∀ k : Nat,
    k ≤ (relabelSegs l k).2 := by
  induction l with
  | nil => intro k; exact le_refl k
  | cons s rest ih =>
    intro k
    show k ≤ (relabelSegs rest ((s.relabel k).2)).2
    exact le_trans (segRelabel_counter_le s k) (ih _)

/-- Every address of a relabelled segment list lies in the counter's
window. -/
theorem relabelSegs_addrs_bound (l : List Segment) : ∀ k x : Nat,
    x ∈ (relabelSegs l k).1.flatMap Segment.addrs →
    k ≤ x ∧ x < (relabelSegs l k).2 := by
  induction l with
  | nil => intro k x hx; simp [relabelSegs] at hx
  | cons s rest ih =>
    intro k x hx
    have hshape : (relabelSegs (s :: rest) k).1 =
        (s.relabel k).1 :: (relabelSegs rest ((s.relabel k).2)).1 := rfl
    rw [hshape, List.flatMap_cons] at hx
    have h2 : (relabelSegs (s :: rest) k).2 =
        (relabelSegs rest ((s.relabel k).2)).2 := rfl
    rw [h2]
    rcases List.mem_append.mp hx with hs | hr
    · obtain ⟨h1, hlt⟩ := segRelabel_addrs_bound s k x hs
      exact ⟨h1, lt_of_lt_of_le hlt (relabelSegs_counter_le rest _)⟩
    · obtain ⟨h1, hlt⟩ := ih _ x hr
      exact ⟨le_trans (segRelabel_counter_le s k) h1, hlt⟩

/-- Relabelling a segment list changes only addresses. -/
theorem relabelSegs_erase (l : List Segment) : ∀ k : Nat,
    (relabelSegs l k).1.map Segment.erase = l.map Segment.erase := by
  induction l with
  | nil => intro k; rfl
  | cons s rest ih =>
    intro k
    show (s.relabel k).1.erase ::
        (relabelSegs rest ((s.relabel k).2)).1.map Segment.erase = _
    rw [segRelabel_erase, ih]
    rfl

/-- A mutation aimed at an address none of the segments carry leaves the
list unchanged. -/
theorem segsMutate_not_mem (m : Nat) (u : Mut) (l : List Segment)
    (h : ∀ s ∈ l, m ∉ s.addrs) : l.map (Segment.mutate m u) = l := by
  induction l with
  | nil => rfl
  | cons s rest ih =>
    rw [List.map_cons, Segment.mutate_not_mem m u s (h s (List.mem_cons_self s rest)),
      ih (fun s' hs' => h s' (List.mem_cons_of_mem s hs'))]

/-- C4: under a counter larger than every address of the body, `copy()`
(a deep copy) preserves the markup content while sharing no object address
with the original, any mutation through the copy's addresses leaves the
original unchanged, and any mutation through the original's addresses
leaves the copy unchanged. -/
theorem spec_c4 (b : PostBodyObj) (k : Nat) (hk : ∀ x ∈ b.addrs, x < k) :
    (b.deepcopy k).1.erase = b.erase ∧
    (∀ x ∈ (b.deepcopy k).1.addrs, ∀ y ∈ b.addrs, x ≠ y) ∧
    (∀ (m : Nat) (u : Mut), m ∈ (b.deepcopy k).1.addrs → b.mutate m u = b) ∧
    (∀ (m : Nat) (u : Mut), m ∈ b.addrs →
      (b.deepcopy k).1.mutate m u = (b.deepcopy k).1) := by
  have hcopy_lb : ∀ x ∈ (b.deepcopy k).1.addrs, k ≤ x := by
    intro x hx
    rcases List.mem_cons.mp hx with rfl | hx2
    · exact le_refl x
    · exact le_trans (Nat.le_succ k)
        (relabelSegs_addrs_bound b.segs (k + 1) x hx2).1
  refine ⟨?_, ?_, ?_, ?_⟩
  · show PostBodyObj.erase ⟨k, (relabelSegs b.segs (k + 1)).1⟩ = b.erase
    unfold PostBodyObj.erase
    simp only
    rw [relabelSegs_erase]
  · intro x hx y hy heq
    exact absurd (hk y hy) (not_lt_of_ge (heq ▸ hcopy_lb x hx))
  · intro m u hm
    have hmk : k ≤ m := hcopy_lb m hm
    unfold PostBodyObj.mutate
    have : b.segs.map (Segment.mutate m u) = b.segs := by
      refine segsMutate_not_mem m u b.segs (fun s hs hms => ?_)
      have : m ∈ b.addrs := List.mem_cons_of_mem b.addr
        (List.mem_flatMap.mpr ⟨s, hs, hms⟩)
      exact absurd (hk m this) (not_lt_of_ge hmk)
    rw [this]
  · intro m u hm
    have hmk : m < k := hk m hm
    unfold PostBodyObj.mutate
    have : (b.deepcopy k).1.segs.map (Segment.mutate m u) =
        (b.deepcopy k).1.segs := by
      refine segsMutate_not_mem m u _ (fun s hs hms => ?_)
      have hmem : m ∈ (relabelSegs b.segs (k + 1)).1.flatMap Segment.addrs :=
        List.mem_flatMap.mpr ⟨s, hs, hms⟩
      have := (relabelSegs_addrs_bound b.segs (k + 1) m hmem).1
      exact absurd (lt_of_lt_of_le hmk (Nat.le_succ k)) (not_lt_of_ge this)
    rw [this]

/-- Concrete instantiation of the deep-copy independence contract, on a body
holding a paragraph with a nested bold node and an image. -/
theorem spec_c4_witness :
    ((PostBodyObj.mk 0 [Segment.paragraph 1
        (.node 2 "p" [] "hi" "" (.node 3 "b" [] "x" "" .nil .nil) .nil),
      Segment.image 4 "i" "u" "a.png" none]).deepcopy 10).1.erase =
      (PostBodyObj.mk 0 [Segment.paragraph 1
        (.node 2 "p" [] "hi" "" (.node 3 "b" [] "x" "" .nil .nil) .nil),
      Segment.image 4 "i" "u" "a.png" none]).erase ∧
    (∀ x ∈ ((PostBodyObj.mk 0 [Segment.paragraph 1
        (.node 2 "p" [] "hi" "" (.node 3 "b" [] "x" "" .nil .nil) .nil),
      Segment.image 4 "i" "u" "a.png" none]).deepcopy 10).1.addrs,
      ∀ y ∈ (PostBodyObj.mk 0 [Segment.paragraph 1
        (.node 2 "p" [] "hi" "" (.node 3 "b" [] "x" "" .nil .nil) .nil),
      Segment.image 4 "i" "u" "a.png" none]).addrs, x ≠ y) ∧
    (∀ (m : Nat) (u : Mut), m ∈ ((PostBodyObj.mk 0 [Segment.paragraph 1
        (.node 2 "p" [] "hi" "" (.node 3 "b" [] "x" "" .nil .nil) .nil),
      Segment.image 4 "i" "u" "a.png" none]).deepcopy 10).1.addrs →
      (PostBodyObj.mk 0 [Segment.paragraph 1
        (.node 2 "p" [] "hi" "" (.node 3 "b" [] "x" "" .nil .nil) .nil),
      Segment.image 4 "i" "u" "a.png" none]).mutate m u =
      PostBodyObj.mk 0 [Segment.paragraph 1
        (.node 2 "p" [] "hi" "" (.node 3 "b" [] "x" "" .nil .nil) .nil),
      Segment.image 4 "i" "u" "a.png" none]) ∧
    (∀ (m : Nat) (u : Mut), m ∈ (PostBodyObj.mk 0 [Segment.paragraph 1
        (.node 2 "p" [] "hi" "" (.node 3 "b" [] "x" "" .nil .nil) .nil),
      Segment.image 4 "i" "u" "a.png" none]).addrs →
      ((PostBodyObj.mk 0 [Segment.paragraph 1
        (.node 2 "p" [] "hi" "" (.node 3 "b" [] "x" "" .nil .nil) .nil),
      Segment.image 4 "i" "u" "a.png" none]).deepcopy 10).1.mutate m u =
      ((PostBodyObj.mk 0 [Segment.paragraph 1
        (.node 2 "p" [] "hi" "" (.node 3 "b" [] "x" "" .nil .nil) .nil),
      Segment.image 4 "i" "u" "a.png" none]).deepcopy 10).1) :=
  spec_c4 _ 10 (by decide)

/-! Claim C9. -/

/-- When no span's tag is `"bold"`, the split loop only ever appends plain
fragments. -/
theorem formatText_foldl_plain (text : List Char) (styles : List RawStyle)
    (hb : ∀ st ∈ styles, st.type ≠ "bold") :
    ∀ acc : List Inline × Nat, (∀ i ∈ acc.1, ∃ s, i = Inline.plain s) →
    ∀ i ∈ (styles.foldl (formatTextStep text) acc).1, ∃ s, i = Inline.plain s := by
  induction styles with
  | nil => intro acc hacc i hi; exact hacc i hi
  | cons st rest ih =>
    intro acc hacc i hi
    rw [List.foldl_cons] at hi
    refine ih (fun st' hst' => hb st' (List.mem_cons_of_mem st hst'))
      (formatTextStep text acc st) ?_ i hi
    intro j hj
    have hshape : (formatTextStep text acc st).1 = acc.1 ++
        [Inline.plain (String.mk (pySlice text acc.2 st.offset)),
         if st.type = "bold" then
           Inline.bold (String.mk (pySlice text st.offset (st.offset + st.length)))
         else
           Inline.plain (String.mk (pySlice text st.offset (st.offset + st.length)))] :=
      rfl
    rw [hshape] at hj
    rcases List.mem_append.mp hj with hj1 | hj2
    · exact hacc j hj1
    · rw [if_neg (hb st (List.mem_cons_self st rest))] at hj2
      rcases List.mem_cons.mp hj2 with rfl | hj3
      · exact ⟨_, rfl⟩
      · exact ⟨_, List.mem_singleton.mp hj3⟩

/-- C9 as stated fails on the code: on the example input, whose spans sit
under the raw key `styles`, `_build_article_body` builds the second
paragraph as plain `"bold text"` with no bold child, because `_format_text`
looks for the key `style`. -/
theorem spec_c9_counterexample :
    Post._build_article_body exampleArticleStylesKey = .ok
      [.seg (.paragraph 0 (.node 0 "h2" [] "Hi" "" .nil .nil)),
       .seg (.paragraph 0 (.node 0 "p" [] "bold text" "" .nil .nil))] ∧
    Post._build_article_body exampleArticleStylesKey ≠ .ok
      [.seg (.paragraph 0 (.node 0 "h2" [] "Hi" "" .nil .nil)),
       .seg (.paragraph 0 (.node 0 "p" [] "" ""
         (.node 0 "b" [] "bold" " text" .nil .nil) .nil))] := by
  constructor
  · decide
  · decide

/-- C9 amended: with the span list under the key `style` (the key the
builder reads), the built body has exactly two members, an `h2` element
`"Hi"` and a paragraph whose first inline child is a bold `"bold"` followed
by the plain tail `" text"`; each paragraph's markup is what rendering
embeds; and a span with an unrecognized tag degrades to plain text. -/
theorem spec_c9 :
    Post._build_article_body exampleArticleStyleKey = .ok
      [.seg (.paragraph 0 (.node 0 "h2" [] "Hi" "" .nil .nil)),
       .seg (.paragraph 0 (.node 0 "p" [] "" ""
         (.node 0 "b" [] "bold" " text" .nil .nil) .nil))] ∧
    (Segment.paragraph 0 (.node 0 "h2" [] "Hi" "" .nil .nil)).html =
      .ok (.node 0 "h2" [] "Hi" "" .nil .nil) ∧
    (Segment.paragraph 0 (.node 0 "p" [] "" ""
        (.node 0 "b" [] "bold" " text" .nil .nil) .nil)).html =
      .ok (.node 0 "p" [] "" "" (.node 0 "b" [] "bold" " text" .nil .nil) .nil) ∧
    (PostBody.init (.iter
      [Segment.paragraph 0 (.node 0 "h2" [] "Hi" "" .nil .nil),
       Segment.paragraph 0 (.node 0 "p" [] "" ""
         (.node 0 "b" [] "bold" " text" .nil .nil) .nil)])).length = 2 ∧
    (∀ (text : String) (styles : List RawStyle),
      (∀ st ∈ styles, st.type ≠ "bold") →
      ∀ i ∈ _format_text text (some styles), ∃ s, i = Inline.plain s) := by
  refine ⟨by decide, rfl, rfl, by decide, ?_⟩
  intro text styles hb i hi
  simp only [_format_text] at hi
  by_cases hlen : (styles.foldl (formatTextStep text.data) ([], 0)).2 <
    text.data.length
  · rw [if_pos hlen] at hi
    rcases List.mem_append.mp hi with h1 | h2
    · exact formatText_foldl_plain text.data styles hb ([], 0) (by simp) i h1
    · exact ⟨_, List.mem_singleton.mp h2⟩
  · rw [if_neg hlen] at hi
    exact formatText_foldl_plain text.data styles hb ([], 0) (by simp) i hi

/-! Claim C7. -/

theorem except_bind_error {α β : Type} (e : String) (f : α → Except String β) :
    (Except.error e >>= f) = Except.error e := rfl

theorem except_bind_ok {α β : Type} (a : α) (f : α → Except String β) :
    (Except.ok a >>= f) = f a := rfl

/-- `takeWhile` walks through a prefix whose members all satisfy the
predicate. -/
theorem takeWhile_append_all (p : Char → Bool) (l1 l2 : List Char)
    (h : ∀ c ∈ l1, p c = true) :
    (l1 ++ l2).takeWhile p = l1 ++ l2.takeWhile p := by
  induction l1 with
  | nil => rfl
  | cons c rest ih =>
    rw [List.cons_append, List.takeWhile_cons, h c (List.mem_cons_self c rest),
      ih (fun c' hc' => h c' (List.mem_cons_of_mem c hc'))]
    rfl

/-- `dropWhile` drops a prefix whose members all satisfy the predicate. -/
theorem dropWhile_append_all (p : Char → Bool) (l1 l2 : List Char)
    (h : ∀ c ∈ l1, p c = true) :
    (l1 ++ l2).dropWhile p = l2.dropWhile p := by
  induction l1 with
  | nil => rfl
  | cons c rest ih =>
    rw [List.cons_append, List.dropWhile_cons]
    rw [h c (List.mem_cons_self c rest)]
    exact ih (fun c' hc' => h c' (List.mem_cons_of_mem c hc'))

theorem findAllAux_nil (fuel : Nat) : findAllAux fuel [] = [] := by
  cases fuel <;> rfl

/-- One scanning step of `findAllAux`. -/
theorem findAllAux_cons (fuel : Nat) (c : Char) (cs : List Char) :
    findAllAux (fuel + 1) (c :: cs) =
      match matchAt (c :: cs) with
      | some (m, rest) => m :: findAllAux fuel rest
      | none => findAllAux fuel cs := rfl

/-- The duration regex on `<digits> sec` matches once, capturing the digits
as the value and `sec` as the unit. -/
theorem findAll_digits_sec (ds : List Char) (hne : ds ≠ [])
    (hd : ∀ c ∈ ds, c.isDigit = true) :
    findAll (ds ++ " sec".data) = [(ds, "sec".data)] := by
  have hval : ∀ c ∈ ds, isValChar c = true := fun c hc => by
    simp [isValChar, hd c hc]
  have hmatch : matchAt (ds ++ " sec".data) = some ((ds, "sec".data), []) := by
    simp only [matchAt]
    rw [takeWhile_append_all isValChar ds _ hval,
      dropWhile_append_all isValChar ds _ hval]
    simp
    decide
  obtain ⟨d, ds', rfl⟩ : ∃ d ds', ds = d :: ds' := by
    cases ds with
    | nil => exact absurd rfl hne
    | cons d ds' => exact ⟨d, ds', rfl⟩
  rw [List.cons_append] at hmatch
  unfold findAll
  rw [List.cons_append, List.length_cons, findAllAux_cons, hmatch]
  show (d :: ds', "sec".data) :: findAllAux (ds' ++ " sec".data).length [] = _
  rw [findAllAux_nil]

/-- `float` on a nonempty digit string is its numeral value. -/
theorem parseValue_digits (ds : List Char) (hne : ds ≠ [])
    (hd : ∀ c ∈ ds, c.isDigit = true) :
    parseValue ds = some (PyFloat.ofNat (digitsToNat ds)) := by
  have hall : ds.all isValChar = true :=
    List.all_eq_true.mpr (fun c hc => by simp [isValChar, hd c hc])
  have hany : ds.any Char.isDigit = true := by
    obtain ⟨d, ds', rfl⟩ : ∃ d ds', ds = d :: ds' := by
      cases ds with
      | nil => exact absurd rfl hne
      | cons d ds' => exact ⟨d, ds', rfl⟩
    exact List.any_eq_true.mpr ⟨d, List.mem_cons_self d ds',
      hd d (List.mem_cons_self d ds')⟩
  have hdrop : ds.dropWhile (fun c => !(c = '.')) = [] := by
    rw [List.dropWhile_eq_nil_iff]
    intro c hc
    have hcd := hd c hc
    have : ¬ (c = '.') := fun hcc => by
      rw [hcc] at hcd
      exact absurd hcd (by decide)
    simp [this]
  unfold parseValue
  rw [hall, hany, hdrop]
  rfl

/-- The big-endian digit fold agrees with `Nat.ofDigits` on the reversed
digit values. -/
theorem digitsToNat_eq_ofDigits (ds : List Char) :
    digitsToNat ds = Nat.ofDigits 10 ((ds.map (fun c => c.toNat - 48)).reverse) := by
  induction ds using List.reverseRecOn with
  | nil => rfl
  | append_singleton l c ih =>
    have hfold : digitsToNat (l ++ [c]) = 10 * digitsToNat l + (c.toNat - 48) := by
      simp [digitsToNat, List.foldl_append]
    rw [hfold, List.map_append, List.reverse_append]
    simp only [List.map_cons, List.map_nil, List.reverse_cons, List.reverse_nil,
      List.nil_append, List.singleton_append, Nat.ofDigits_cons]
    rw [ih]
    ring

/-- Normalization is the identity on a significand below `2 ^ 53`. -/
theorem PyFloat.normalize_small (m : ℕ) (e : ℤ) (h : m < 2 ^ 53) :
    PyFloat.normalize m e = ⟨m, e⟩ := by
  unfold PyFloat.normalize
  rw [if_pos h]

/-- A natural number below `2 ^ 53` converts to a float exactly. -/
theorem PyFloat.ofNat_small (n : ℕ) (h : n < 2 ^ 53) :
    PyFloat.ofNat n = ⟨n, 0⟩ :=
  PyFloat.normalize_small n 0 h

/-- Multiplying an exactly-held small integer by the float `1.0` is exact. -/
theorem PyFloat.mul_one_small (n : ℕ) (e : ℤ) (h : n < 2 ^ 53) :
    PyFloat.mul ⟨n, e⟩ (PyFloat.ofNat 1) = ⟨n, e⟩ := by
  rw [PyFloat.ofNat_small 1 (by norm_num)]
  show PyFloat.normalize (n * 1) (e + 0) = ⟨n, e⟩
  rw [Nat.mul_one, add_zero]
  exact PyFloat.normalize_small n e h

/-- Adding an exactly-held small integer to the float `0.0` is exact. -/
theorem PyFloat.zero_add_small (n : ℕ) (h : n < 2 ^ 53) :
    PyFloat.add ⟨0, 0⟩ ⟨n, 0⟩ = ⟨n, 0⟩ := by
  unfold PyFloat.add
  simp only [min_self, sub_self, Int.toNat_zero, pow_zero, Nat.mul_one,
    Nat.zero_mul, Nat.zero_add]
  exact PyFloat.normalize_small n 0 h

/-- Python `round` on a float holding an integer with exponent zero. -/
theorem PyFloat.pyRound_exp0 (n : ℕ) : PyFloat.pyRound ⟨n, 0⟩ = n := by
  unfold PyFloat.pyRound
  simp

/-- Evaluate one loop iteration from its parsed value and unit. -/
theorem addMatch_eval (acc b : PyFloat) (v u : List Char) (mult : Nat)
    (hv : (if v.isEmpty then some (PyFloat.ofNat 1) else parseValue v) = some b)
    (hu : unitMultiplier u = some mult) :
    addMatch acc (v, u) = Except.ok (acc.add (b.mul (PyFloat.ofNat mult))) := by
  unfold addMatch
  rw [hv, hu]
  rfl

theorem foldlM_addMatch_singleton (m : List Char × List Char) (acc q : PyFloat)
    (h : addMatch acc m = Except.ok q) :
    [m].foldlM addMatch acc = Except.ok q := by
  show (addMatch acc m >>= fun b => [].foldlM addMatch b) = Except.ok q
  rw [h]
  rfl

theorem foldlM_addMatch_cons (m : List Char × List Char)
    (ms : List (List Char × List Char)) (acc q : PyFloat)
    (h : addMatch acc m = Except.ok q) :
    (m :: ms).foldlM addMatch acc = ms.foldlM addMatch q := by
  show (addMatch acc m >>= fun b => ms.foldlM addMatch b) = ms.foldlM addMatch q
  rw [h]
  rfl

/-- Evaluate `_parse_duration_pattern` from its matches, their float sum and
its rounding. -/
theorem pdp_eval (s : String) (ms : List (List Char × List Char)) (q : PyFloat)
    (z : ℤ) (hms : findAll s.data = ms) (hne : ms ≠ [])
    (hfold : ms.foldlM addMatch (⟨0, 0⟩ : PyFloat) = Except.ok q)
    (hround : q.pyRound = z) :
    _parse_duration_pattern s = .ok z := by
  have hemp : ms.isEmpty = false := by
    cases ms with
    | nil => exact absurd rfl hne
    | cons a l => rfl
  unfold _parse_duration_pattern
  rw [hms, hemp]
  simp only [Bool.false_eq_true, if_false]
  rw [hfold]
  show Except.ok q.pyRound = Except.ok z
  rw [hround]

/-- A match with an unparsable value or an unrecognized unit makes the loop
iteration raise, whatever the accumulator. -/
theorem addMatch_error (m : List Char × List Char)
    (h : (m.1 ≠ [] ∧ parseValue m.1 = none) ∨ unitMultiplier m.2 = none) :
    ∀ acc : PyFloat, ∃ e, addMatch acc m = .error e := by
  intro acc
  unfold addMatch
  rcases h with ⟨hne, hpv⟩ | hu
  · have hemp : m.1.isEmpty = false := by
      cases hm : m.1 with
      | nil => exact absurd hm hne
      | cons a l => rfl
    rw [hemp]
    simp only [Bool.false_eq_true, if_false]
    rw [hpv]
    exact ⟨"The value cannot be parsed as a number.", rfl⟩
  · cases hv : (if m.1.isEmpty then some (PyFloat.ofNat 1) else parseValue m.1) with
    | none => exact ⟨"The value cannot be parsed as a number.", rfl⟩
    | some b => exact ⟨"Unrecognized unit.", by rw [hu]; rfl⟩

/-- The loop raises as soon as some match is bad. -/
theorem foldlM_addMatch_error (ms : List (List Char × List Char)) :
    ∀ acc : PyFloat,
    (∃ m ∈ ms, (m.1 ≠ [] ∧ parseValue m.1 = none) ∨ unitMultiplier m.2 = none) →
    ∃ e, ms.foldlM addMatch acc = .error e := by
  induction ms with
  | nil =>
    intro acc h
    simp at h
  | cons m rest ih =>
    rintro acc ⟨m', hm', hbad⟩
    cases haddm : addMatch acc m with
    | error e =>
      refine ⟨e, ?_⟩
      show (addMatch acc m >>= fun b => rest.foldlM addMatch b) = Except.error e
      rw [haddm]
      rfl
    | ok acc2 =>
      rcases List.mem_cons.mp hm' with rfl | hmem
      · obtain ⟨e, he⟩ := addMatch_error m' hbad acc
        rw [haddm] at he
        cases he
      · obtain ⟨e, he⟩ := ih acc2 ⟨m', hmem, hbad⟩
        refine ⟨e, ?_⟩
        show (addMatch acc m >>= fun b => rest.foldlM addMatch b) = Except.error e
        rw [haddm]
        exact he

/-- C7 as stated fails on the code: the parser goes through binary64
floats, and `float("9007199254740993")` (the numeral 2^53 + 1) rounds half
to even down to 2^53, so `parse("9007199254740993 sec")` returns
9007199254740992, not the numeral's value. -/
theorem spec_c7_counterexample :
    parse_duration (.str "9007199254740993 sec") = .ok 9007199254740992 ∧
    (9007199254740992 : ℤ) ≠ (9007199254740993 : ℤ) := by
  constructor
  · decide
  · decide

/-- C7 amended: the duration parser maps `"<n> sec"` to the numeral's value
for every nonempty digit string below `2 ^ 53` (the whole numbers binary64
holds exactly; above it the float conversion rounds, as the counterexample
shows), `"1h"` to 3600, `"1h, 30m"` to 5400 and `"3.14m"` to 188 (the
float-summed seconds rounded to the nearest integer), and a string whose
match carries a non-numeric value or an unrecognized unit raises a parse
error instead of returning a value. -/
theorem spec_c7 :
    (∀ ds : List Char, ds ≠ [] → (∀ c ∈ ds, c.isDigit = true) →
      digitsToNat ds < 2 ^ 53 →
      parse_duration (.str (String.mk (ds ++ " sec".data))) =
        .ok ((Nat.ofDigits 10 ((ds.map (fun c => c.toNat - 48)).reverse) : ℤ))) ∧
    parse_duration (.str "1h") = .ok 3600 ∧
    parse_duration (.str "1h, 30m") = .ok 5400 ∧
    parse_duration (.str "3.14m") = .ok 188 ∧
    (∀ s : String,
      (∃ m ∈ findAll s.data,
        (m.1 ≠ [] ∧ parseValue m.1 = none) ∨ unitMultiplier m.2 = none) →
      ∃ e, parse_duration (.str s) = .error e) := by
  refine ⟨?_, by decide, by decide, by decide, ?_⟩
  · intro ds hne hd hlt
    have hfa : findAll (String.mk (ds ++ " sec".data)).data = [(ds, "sec".data)] :=
      findAll_digits_sec ds hne hd
    have hemp : ds.isEmpty = false := by
      cases ds with
      | nil => exact absurd rfl hne
      | cons a l => rfl
    have hv : (if ds.isEmpty then some (PyFloat.ofNat 1) else parseValue ds) =
        some (PyFloat.ofNat (digitsToNat ds)) := by
      rw [hemp]
      simp only [Bool.false_eq_true, if_false]
      exact parseValue_digits ds hne hd
    have hm : addMatch ⟨0, 0⟩ (ds, "sec".data) = Except.ok
        ((⟨0, 0⟩ : PyFloat).add
          ((PyFloat.ofNat (digitsToNat ds)).mul (PyFloat.ofNat 1))) :=
      addMatch_eval ⟨0, 0⟩ _ ds "sec".data 1 hv (by decide)
    have hval : ((⟨0, 0⟩ : PyFloat).add
        ((PyFloat.ofNat (digitsToNat ds)).mul (PyFloat.ofNat 1))) =
        ⟨digitsToNat ds, 0⟩ := by
      rw [PyFloat.ofNat_small _ hlt, PyFloat.mul_one_small _ _ hlt,
        PyFloat.zero_add_small _ hlt]
    have hround : PyFloat.pyRound ⟨digitsToNat ds, 0⟩ =
        ((Nat.ofDigits 10 ((ds.map (fun c => c.toNat - 48)).reverse) : ℤ)) := by
      rw [PyFloat.pyRound_exp0]
      exact_mod_cast digitsToNat_eq_ofDigits ds
    show _parse_duration_pattern (String.mk (ds ++ " sec".data)) = .ok _
    exact pdp_eval _ [(ds, "sec".data)] ⟨digitsToNat ds, 0⟩ _ hfa (by simp)
      (foldlM_addMatch_singleton _ _ _ (hval ▸ hm)) hround
  · rintro s ⟨m, hm, hbad⟩
    have hne : findAll s.data ≠ [] := fun h => by
      rw [h] at hm
      cases hm
    have hemp : (findAll s.data).isEmpty = false := by
      cases hfa : findAll s.data with
      | nil => exact absurd hfa hne
      | cons a l => rfl
    obtain ⟨e, he⟩ := foldlM_addMatch_error (findAll s.data) ⟨0, 0⟩ ⟨m, hm, hbad⟩
    refine ⟨e, ?_⟩
    show _parse_duration_pattern s = Except.error e
    unfold _parse_duration_pattern
    rw [hemp]
    simp only [Bool.false_eq_true, if_false]
    rw [he]
    rfl

/-- Concrete instantiation of the duration parser contract: a numeral case
and both failure modes (an unrecognized unit and a non-numeric value). -/
theorem spec_c7_witness :
    parse_duration (.str (String.mk (['4', '2'] ++ " sec".data))) =
      .ok ((Nat.ofDigits 10 (((['4', '2']).map (fun c => c.toNat - 48)).reverse) : ℤ)) ∧
    (∃ e, parse_duration (.str "3 parsec") = .error e) ∧
    (∃ e, parse_duration (.str "1.2.3 sec") = .error e) :=
  ⟨spec_c7.1 ['4', '2'] (by decide) (by decide) (by decide),
   spec_c7.2.2.2.2 "3 parsec" ⟨(['3'], "parsec".data), by decide, by decide⟩,
   spec_c7.2.2.2.2 "1.2.3 sec" ⟨(['1', '.', '2', '.', '3'], "sec".data),
     by decide, by decide⟩⟩

/-! Claim C8. -/

/-- C8: the `rate_limit` string `"10 req/s"` parses to the pair (10, 1),
and transport construction hands exactly the parsed pair to the token-bucket
limiter as its capacity and refill period. -/
theorem spec_c8 :
    parse_rate_limit "10 req/s" = .ok (10, 1) ∧
    (∀ (cache : CacheArg) (fcc : Bool) (rl : String) (t : ClientTransport),
      ClientTransport.init cache fcc rl = .ok t →
      ∃ n p, parse_rate_limit rl = .ok (n, p) ∧
        t.limiterMaxRate = n ∧ t.limiterPeriod = p) := by
  constructor
  · decide
  · intro cache fcc rl t hinit
    unfold ClientTransport.init at hinit
    cases hma : (match cache with
      | .bool b => Except.ok (if b then (86400 : ℤ) else 0)
      | .int n => parse_duration (.int n)
      | .str s => parse_duration (.str s)) with
    | error e =>
      rw [hma, except_bind_error] at hinit
      cases hinit
    | ok maxAge =>
      rw [hma, except_bind_ok] at hinit
      cases hlim : parse_rate_limit rl with
      | error e =>
        rw [hlim, except_bind_error] at hinit
        cases hinit
      | ok lim =>
        rw [hlim, except_bind_ok] at hinit
        have ht := Except.ok.inj hinit
        exact ⟨lim.1, lim.2, rfl, by rw [← ht], by rw [← ht]⟩

end Collector
